import Mathlib

/-!
Shallow embedding of `nessie`'s cross-validation evaluation pipeline
(`src/nessie/evaluation.py`) together with the sklearn fold splitters it
instantiates, and proofs of the specified properties.

Conventions:
* numpy string / float arrays become Lean lists; probability matrices are
  `List (List Rat)`.
* `np.empty(n)` destination arrays become `List (Option α)` initialised to
  `replicate n none`; a numpy fancy-index assignment becomes an
  `Option`-valued scatter that fails exactly when numpy would raise
  (out-of-bounds index, or a shape that does not broadcast) and that
  performs numpy's length-1 broadcast otherwise.
* a Python `assert` or `raise` becomes an `Except String` error.
* the seeded global random generator is an explicit `RNG` parameter whose
  lawfulness (shuffles are permutations) is a hypothesis of the theorems.
-/

deriving instance DecidableEq for Except

/-- Write value `v` at position `i` of `arr`, leaving `arr` unchanged when
`i` is out of range (callers check bounds first). -/
def writeAt (arr : List α) (i : Nat) (v : α) : List α :=
  arr.set i v

/-- Sequentially write a list of (index, value) pairs; later writes win,
matching numpy fancy-index assignment with duplicate indices. -/
def writePairs (arr : List α) (ps : List (Nat × α)) : List α :=
  ps.foldl (fun a p => writeAt a p.1 p.2) arr

/-- numpy assignment `arr[idxs] = vals` on a 1-D destination of `Option`
cells: fails when an index is out of range or when `vals` has neither the
same length as `idxs` nor length one; a single value broadcasts to every
index. -/
def scatterRows (arr : List (Option α)) (idxs : List Nat) (vals : List α) :
    Option (List (Option α)) :=
  if idxs.any (fun i => arr.length ≤ i) then none
  else if vals.length = idxs.length then
    some (writePairs arr (idxs.zip (vals.map some)))
  else
    match vals with
    | [v] => some (writePairs arr (idxs.map (fun i => (i, some v))))
    | _ => none

/-- numpy column broadcast of one row into width `w`: keep a row of length
`w`, broadcast a singleton row, fail otherwise. -/
def broadcastCols (w : Nat) (row : List α) : Option (List α) :=
  if row.length = w then some row
  else
    match row with
    | [v] => some (List.replicate w v)
    | _ => none

/-- numpy assignment `arr[idxs] = vals` on a 2-D float destination with `w`
columns: every value row must broadcast to width `w`, and the rows
themselves follow the 1-D scatter rules. -/
def scatter2 (arr : List (Option (List Rat))) (idxs : List Nat)
    (vals : List (List Rat)) (w : Nat) : Option (List (Option (List Rat))) := do
  let rows ← vals.mapM (broadcastCols w)
  scatterRows arr idxs rows

/-- numpy assignment on the 3-D `(num_samples, T, num_labels)` object array
of repeated probabilities: each per-instance `(T, classes)` block must
broadcast to `(reps, w)`. -/
def scatter3 (arr : List (Option (List (List Rat)))) (idxs : List Nat)
    (vals : List (List (List Rat))) (reps w : Nat) :
    Option (List (Option (List (List Rat)))) := do
  let blocks ← vals.mapM (fun mat => do
    let mat' ←
      if mat.length = reps then some mat
      else
        match mat with
        | [r] => some (List.replicate reps r)
        | _ => none
    mat'.mapM (broadcastCols w))
  scatterRows arr idxs blocks

/-- Split a list into consecutive chunks of the given sizes (what feeds the
`current : current + fold_size` slicing in sklearn's `KFold`). -/
def chunksOf : List Nat → List α → List (List α)
  | [], _ => []
  | s :: ss, l => l.take s :: chunksOf ss (l.drop s)

/-- Deduplicate keeping the first occurrence of each element, the order
`np.unique` composed with sklearn's first-occurrence re-encoding produces. -/
def firstDedup [DecidableEq α] : List α → List α
  | [] => []
  | a :: l => a :: (firstDedup l).filter (fun b => b ≠ a)

/-- `np.swapaxes(a, 0, 1)` on a rectangular list-of-rows: the result's row
`i` collects entry `i` of every input row. -/
def swapAxes01 [Inhabited α] (l : List (List α)) : List (List α) :=
  (List.range (l.headD []).length).map (fun i => l.map (fun row => row.getD i default))

/-- `l[i::k]` numpy strided slicing: every `k`-th element starting at `i`. -/
def stridedSlice (k : Nat) (l : List α) (i : Nat) : List α :=
  ((List.range l.length).filter
      (fun j => decide (i ≤ j) && decide ((j - i) % k = 0))).filterMap
    (fun j => l[j]?)

/-- Gather `xs[idxs]`, failing on an out-of-range index as numpy does. -/
def gatherE (xs : List α) (idxs : List Nat) : Except String (List α) :=
  idxs.mapM (fun i =>
    match xs[i]? with
    | some v => Except.ok v
    | none => Except.error "index out of bounds")

/-- Sum of the first `g` entries of `sizes`: the flat offset of group `g`
in the flattened index space of a ragged array. -/
def offsetOf (sizes : List Nat) (g : Nat) : Nat :=
  (sizes.take g).sum


/-! ### Fold splitters

`get_cross_validator` (evaluation.py lines 232-239) returns sklearn's
`StratifiedKFold` / `KFold` (both with `shuffle=True` seeded by the global
`RANDOM_STATE`) for `n_splits > 1`, else the repository's `SingeSplitCV`.
The seeded generator is modelled as an explicit `RNG`; its lawfulness
(shuffles are permutations) is a hypothesis of the theorems. -/

/-- The outputs a seeded numpy `RandomState` contributes to the splitters:
`permOf n` is the result of `rng.shuffle(np.arange(n))` inside `KFold`, and
`shuffleList c l` the in-place shuffle of class `c`'s fold assignment list
inside `StratifiedKFold`. -/
structure RNG where
  permOf : Nat → List Nat
  shuffleList : Nat → List Nat → List Nat

/-- A lawful generator only permutes: `permOf n` is a permutation of
`range n` and each class shuffle permutes its input. -/
def RNG.lawful (rng : RNG) : Prop :=
  (∀ n, (rng.permOf n).Perm (List.range n)) ∧
  (∀ c l, (rng.shuffleList c l).Perm l)

/-- A degenerate generator that shuffles nothing (used to instantiate the
theorems at concrete inputs). -/
def idRNG : RNG :=
  { permOf := List.range, shuffleList := fun _ l => l }

/-- sklearn `KFold` fold sizes: `n // k` each, the first `n % k` getting one
extra element. -/
def kfoldSizes (k n : Nat) : List Nat :=
  (List.range k).map (fun i => n / k + if i < n % k then 1 else 0)

/-- sklearn `KFold` test blocks: consecutive chunks of the shuffled index
array. -/
def kfoldTestChunks (k n : Nat) (rng : RNG) : List (List Nat) :=
  chunksOf (kfoldSizes k n) (rng.permOf n)

/-- sklearn `KFold.split`: for each test chunk yield
`(train_indices, eval_indices)`; both are produced from a boolean mask over
`arange(n)` and hence come out in ascending order. -/
def kfoldSplits (k n : Nat) (rng : RNG) : List (List Nat × List Nat) :=
  (kfoldTestChunks k n rng).map (fun chunk =>
    ((List.range n).filter (fun j => !(chunk.contains j)),
     (List.range n).filter (fun j => chunk.contains j)))

/-- sklearn's first-occurrence class re-encoding of the label list
(`np.unique` twice with `return_index`/`return_inverse`): each label is
mapped to the rank of its first occurrence. -/
def encodeFirst [DecidableEq β] (y : List β) : List Nat :=
  y.map (fun s => (firstDedup y).indexOf s)

/-- `StratifiedKFold` allocation: `allocation[i][c]` is how many class-`c`
samples the `i`-th strided slice `y_order[i::k]` of the sorted encoded
labels contains. -/
def stratAllocation (k : Nat) (yOrder : List Nat) (i c : Nat) : Nat :=
  (stridedSlice k yOrder i).count c

/-- `np.arange(n_splits).repeat(allocation[:, c])`: fold id `i` repeated
`allocation[i][c]` times. -/
def foldsForClass (k : Nat) (yOrder : List Nat) (c : Nat) : List Nat :=
  ((List.range k).map (fun i => List.replicate (stratAllocation k yOrder i c) i)).flatten

/-- `test_folds[y_encoded == c] = folds_for_class`: write the (shuffled)
fold assignments of class `c` at that class's positions; numpy raises when
the value list does not match the mask's population, which the construction
in fact always satisfies. -/
def assignClass (tf : List (Option Nat)) (yEnc : List Nat) (c : Nat)
    (vals : List Nat) : Option (List (Option Nat)) :=
  let pos := (List.range yEnc.length).filter (fun i => yEnc.getD i 0 == c)
  if vals.length = pos.length then
    some (writePairs tf (pos.zip (vals.map some)))
  else none

/-- `StratifiedKFold._make_test_folds`: assign every sample a test fold id,
class by class. -/
def stratifiedTestFolds [DecidableEq β] (k : Nat) (y : List β) (rng : RNG) :
    Option (List (Option Nat)) :=
  let yEnc := encodeFirst y
  let nClasses := (firstDedup y).length
  let yOrder := yEnc.insertionSort (fun a b => a ≤ b)
  (List.range nClasses).foldlM
    (fun tf c => assignClass tf yEnc c (rng.shuffleList c (foldsForClass k yOrder c)))
    (List.replicate y.length (none : Option Nat))

/-- Turn the per-sample test fold assignment into the
`(train_indices, eval_indices)` pairs sklearn yields (mask over
`arange(n)`, so ascending). -/
def splitsFromTestFolds (k n : Nat) (tf : List (Option Nat)) :
    List (List Nat × List Nat) :=
  (List.range k).map (fun f =>
    ((List.range n).filter (fun i => !(tf.getD i none == some f)),
     (List.range n).filter (fun i => tf.getD i none == some f)))

/-- `SingeSplitCV.split` (evaluation.py lines 226-229): a single pair with
`indices = np.arange(len(X))` as both train and eval indices. -/
def SingeSplitCV.split (n : Nat) : List (List Nat × List Nat) :=
  [(List.range n, List.range n)]

/-- The three validators `get_cross_validator` can return. -/
inductive Validator where
  | singleSplit
  | kfold (k : Nat)
  | stratifiedKFold (k : Nat)
deriving DecidableEq

/-- `get_cross_validator` (evaluation.py lines 232-239). -/
def get_cross_validator (n_splits : Nat) (stratified : Bool) : Validator :=
  if n_splits > 1 then
    if stratified then Validator.stratifiedKFold n_splits
    else Validator.kfold n_splits
  else Validator.singleSplit

/-- `validator.split(X, y)`: the full fold sequence, with sklearn's raises
(`check_consistent_length`, `n_splits > n_samples`, and for stratification
`n_splits` exceeding every class population) as errors.  `SingeSplitCV`
ignores `y` entirely. -/
def cvSplit [DecidableEq β] (v : Validator) (rng : RNG) (n : Nat) (y : List β) :
    Except String (List (List Nat × List Nat)) :=
  match v with
  | Validator.singleSplit => Except.ok (SingeSplitCV.split n)
  | Validator.kfold k =>
      if y.length ≠ n then
        Except.error "Found input variables with inconsistent numbers of samples"
      else if n < k then
        Except.error "Cannot have number of splits greater than the number of samples"
      else Except.ok (kfoldSplits k n rng)
  | Validator.stratifiedKFold k =>
      if y.length ≠ n then
        Except.error "Found input variables with inconsistent numbers of samples"
      else if n < k then
        Except.error "Cannot have number of splits greater than the number of samples"
      else if (firstDedup y).all (fun lbl => y.count lbl < k) then
        Except.error "n_splits cannot be greater than the number of members in each class"
      else
        match stratifiedTestFolds k y rng with
        | some tf => Except.ok (splitsFromTestFolds k n tf)
        | none => Except.error "could not broadcast fold assignment"

/-! ### Model contract and repeated-probability sampler -/

/-- The state of a `Model` after `fit(X_train, y_train)`: deterministic
predictions/probabilities, dropout-mode probabilities as a function of the
seed installed by `set_my_seed`, and the fitted `label_encoder().classes_`. -/
structure FittedModel where
  predict : List String → List String
  predict_proba : List String → List (List Rat)
  predict_proba_dropout : Nat → List String → List (List Rat)
  classes : List String

/-- The external `Model` collaborator of the flat pipeline: `has_dropout()`
plus the fit function producing the fitted state. -/
structure Model where
  hasDropout : Bool
  fit : List String → List String → FittedModel

/-- `np.allclose` with its default tolerances
(`rtol = 1e-5`, `atol = 1e-8`): elementwise
`|a - b| <= atol + rtol * |b|` on same-shape matrices. -/
def npAllClose (a b : List (List Rat)) : Bool :=
  a.length == b.length &&
  (a.zip b).all (fun p =>
    p.1.length == p.2.length &&
    (p.1.zip p.2).all (fun q =>
      decide (|q.1 - q.2| ≤ 1 / 100000000 + 1 / 100000 * |q.2|)))

/-- What the sampler produces: the `(instances, T, classes)` stack and the
(ambient, non-fatal) warnings it emitted. -/
structure SamplerOut where
  stack : List (List (List Rat))
  warns : List String
deriving DecidableEq

/-- `obtain_repeated_probabilities_flat` (evaluation.py lines 242-284)
parameterised by the numerical-closeness test used in its degeneracy check:
repetition `t` reseeds with `t + 23`, predicts in dropout mode, and after
collecting all `T` samples every ordered pair of distinct repetitions is
compared, emitting one warning per indistinguishable pair; the collected
list is then `swapaxes(0, 1)`-ed into instance-major order. -/
def obtainRepeatedWith (close : List (List Rat) → List (List Rat) → Bool)
    (fitted : FittedModel) (X : List String) (T : Nat) : SamplerOut :=
  let samples := (List.range T).map (fun t => fitted.predict_proba_dropout (t + 23) X)
  let warns :=
    ((List.range T).map (fun a =>
      (((List.range T).filter
          (fun b => b != a && close (samples.getD a []) (samples.getD b []))).map
        (fun _ => "Dropout promised different outputs per run, but got some equal")))).flatten
  { stack := swapAxes01 samples, warns := warns }

/-- `obtain_repeated_probabilities_flat` with its actual `np.allclose`
check. -/
def obtain_repeated_probabilities_flat (fitted : FittedModel) (X : List String)
    (T : Nat) : SamplerOut :=
  obtainRepeatedWith npAllClose fitted X T

/-! ### CrossValidationHelper.run (flat variant, evaluation.py lines 49-130) -/

/-- `Result` dataclass (evaluation.py lines 24-31); destination cells are
`Option`s because the numpy arrays are allocated with `np.empty` and only
become meaningful once written. -/
structure Result where
  predictions : List (Option String)
  probabilities : List (Option (List Rat))
  repeated_probabilities : Option (List (Option (List (List Rat))))
  le : Option (List String)
deriving DecidableEq

/-- `should_compute_repeated_probabilities` (evaluation.py lines 67-69):
`num_repetitions is not None and num_repetitions > 0 and model.has_dropout()`. -/
def shouldComputeRepeated (numReps : Option Int) (model : Model) : Bool :=
  (match numReps with
   | some r => decide (0 < r)
   | none => false) && model.hasDropout

/-- The `num_repetitions` value as the natural number used for array
shapes. -/
def numRepsNat (numReps : Option Int) : Nat :=
  match numReps with
  | some r => r.toNat
  | none => 0

/-- The mutable collection state of the fold loop: the three destination
arrays plus the model's current label encoder. -/
structure RunState where
  preds : List (Option String)
  probs : List (Option (List Rat))
  reps : Option (List (Option (List (List Rat))))
  le : Option (List String)
deriving DecidableEq

/-- The strictly sequential fold loop: run the step on each split in turn,
stopping at the first error (Python's `for` over `kf.split(...)` with
exceptions). -/
def foldE (f : σ → α → Except ε σ) : σ → List α → Except ε σ
  | st, [] => Except.ok st
  | st, x :: xs =>
      match f st x with
      | Except.ok st' => foldE f st' xs
      | Except.error e => Except.error e

/-- The part of a fold iteration of `run` that follows a successful
train/eval slicing (evaluation.py lines 90-123): the four `assert`s, the
optional repeated sampling, and the fancy-index scatters. -/
def foldStepBody (model : Model) (num_labels : Nat) (numReps : Option Int)
    (sampler : FittedModel → List String → Nat → SamplerOut)
    (st : RunState) (eval_indices : List Nat)
    (X_train X_eval y_train y_eval : List String) : Except String RunState :=
  if X_train.length ≠ y_train.length then
    Except.error "assert failed: len(X_train) == len(y_train)"
  else if X_eval.length ≠ y_eval.length then
    Except.error "assert failed: len(X_eval) == len(y_eval)"
  else if eval_indices.length ≠ y_eval.length then
    Except.error "assert failed: len(eval_indices) == len(y_eval)"
  else
    let fitted := model.fit X_train y_train
    let pred_eval := fitted.predict X_eval
    let probas_eval := fitted.predict_proba X_eval
    let num_samples_eval := pred_eval.length
    let num_classes := fitted.classes.length
    if pred_eval.length ≠ num_samples_eval then
      Except.error "assert failed: len(pred_eval) == num_samples_eval"
    else if ¬ (probas_eval.length = num_samples_eval ∧
          ∀ row ∈ probas_eval, row.length = num_classes) then
      Except.error "assert failed: probas_eval.shape == (num_samples_eval, num_classes)"
    else
      let st1 : Except String RunState :=
        if shouldComputeRepeated numReps model then
          match st.reps with
          | some repsArr =>
              let sout := sampler fitted X_eval (numRepsNat numReps)
              match scatter3 repsArr eval_indices sout.stack (numRepsNat numReps)
                  num_labels with
              | some repsArr' => Except.ok { st with reps := some repsArr' }
              | none => Except.error "could not broadcast repeated probabilities"
          | none => Except.error "repeated probabilities array was not allocated"
        else Except.ok st
      match st1 with
      | Except.error e => Except.error e
      | Except.ok st1 =>
        match scatterRows st1.preds eval_indices pred_eval with
        | none => Except.error "could not broadcast predictions"
        | some preds' =>
          match scatter2 st1.probs eval_indices probas_eval num_labels with
          | none => Except.error "could not broadcast probabilities"
          | some probs' =>
              Except.ok { st1 with preds := preds', probs := probs'
                                   le := some fitted.classes }

/-- One iteration of the fold loop of `run` (evaluation.py lines 84-123):
slice train/eval (numpy raises on an out-of-range index), then
`foldStepBody`. -/
def foldStep (model : Model) (X y : List String) (num_labels : Nat)
    (numReps : Option Int)
    (sampler : FittedModel → List String → Nat → SamplerOut)
    (st : RunState) (split : List Nat × List Nat) : Except String RunState :=
  match gatherE X split.1, gatherE X split.2, gatherE y split.1, gatherE y split.2 with
  | Except.ok X_train, Except.ok X_eval, Except.ok y_train, Except.ok y_eval =>
      foldStepBody model num_labels numReps sampler st split.2
        X_train X_eval y_train y_eval
  | Except.error e, _, _, _ => Except.error e
  | _, Except.error e, _, _ => Except.error e
  | _, _, Except.error e, _ => Except.error e
  | _, _, _, Except.error e => Except.error e

/-- `CrossValidationHelper.run` (evaluation.py lines 49-130), parameterised
by the repeated-probability sampler it invokes: the constructor's
`assert n_splits >= 1`, the global `num_labels` from `np.unique(y_noisy)`,
the conditional allocation of the repeated-probability array, the
(stratified) cross validator, the fold loop, and the final `Result` whose
`le` is the model's label encoder after the last fit. -/
def runWith (sampler : FittedModel → List String → Nat → SamplerOut)
    (rng : RNG) (n_splits : Nat) (numReps : Option Int)
    (X y : List String) (model : Model) : Except String Result :=
  if n_splits < 1 then Except.error "assert failed: n_splits >= 1"
  else
    let num_samples := X.length
    let num_labels := (firstDedup y).length
    let should := shouldComputeRepeated numReps model
    let repsInit : Option (List (Option (List (List Rat)))) :=
      if should then
        some (List.replicate num_samples (none : Option (List (List Rat))))
      else none
    let kf := get_cross_validator n_splits true
    let st0 : RunState :=
      { preds := List.replicate num_samples none
        probs := List.replicate num_samples none
        reps := repsInit
        le := none }
    match cvSplit kf rng num_samples y with
    | Except.error e => Except.error e
    | Except.ok splits =>
      match foldE (foldStep model X y num_labels numReps sampler) st0 splits with
      | Except.error e => Except.error e
      | Except.ok st =>
          Except.ok { predictions := st.preds
                      probabilities := st.probs
                      repeated_probabilities := st.reps
                      le := st.le }

/-- `CrossValidationHelper.run` with its actual sampler. -/
def CrossValidationHelper.run (rng : RNG) (n_splits : Nat)
    (numReps : Option Int) (X y : List String) (model : Model) :
    Except String Result :=
  runWith obtain_repeated_probabilities_flat rng n_splits numReps X y model

/-! ### CrossValidationHelper.run_for_ragged (evaluation.py lines 132-223) -/

/-- A fitted sequence tagger: ragged predictions/probabilities (one row per
input sequence, one entry per sub-unit). -/
structure FittedTagger where
  predict : List (List String) → List (List String)
  predict_proba : List (List String) → List (List (List Rat))
  predict_proba_dropout : Nat → List (List String) → List (List (List Rat))
  classes : List String

/-- The external `SequenceTagger` collaborator of the ragged pipeline. -/
structure TaggerModel where
  hasDropout : Bool
  fit : List (List String) → List (List String) → FittedTagger

/-- `obtain_repeated_probabilities_ragged_flattened` (evaluation.py lines
287-330): like the flat sampler but each repetition's ragged matrix is
flattened to token rows before stacking. -/
def obtain_repeated_probabilities_ragged_flattened (fitted : FittedTagger)
    (X : List (List String)) (T : Nat) : SamplerOut :=
  let samples := (List.range T).map
    (fun t => (fitted.predict_proba_dropout (t + 23) X).flatten)
  let warns :=
    ((List.range T).map (fun a =>
      (((List.range T).filter
          (fun b => b != a && npAllClose (samples.getD a []) (samples.getD b []))).map
        (fun _ => "Dropout promised different outputs per run, but got some equal")))).flatten
  { stack := swapAxes01 samples, warns := warns }

/-- `should_compute_repeated_probabilities` of the ragged run (evaluation.py
lines 153-155). -/
def shouldComputeRepeatedRagged (numReps : Option Int) (model : TaggerModel) : Bool :=
  (match numReps with
   | some r => decide (0 < r)
   | none => false) && model.hasDropout

/-- The part of a ragged fold iteration following a successful slicing
(evaluation.py lines 181-216). -/
def foldStepRaggedBody (model : TaggerModel) (num_labels : Nat)
    (numReps : Option Int) (st : RunState)
    (eval_indices score_indices : List Nat)
    (X_train X_eval y_train y_eval : List (List String)) :
    Except String RunState :=
  if X_train.length ≠ y_train.length then
    Except.error "assert failed: len(X_train) == len(y_train)"
  else if X_eval.length ≠ y_eval.length then
    Except.error "assert failed: len(X_eval) == len(y_eval)"
  else if eval_indices.length ≠ y_eval.length then
    Except.error "assert failed: len(eval_indices) == len(y_eval)"
  else
    let fitted := model.fit X_train y_train
    let pred_eval := fitted.predict X_eval
    let probas_eval := fitted.predict_proba X_eval
    let num_samples_eval := pred_eval.length
    let num_classes := fitted.classes.length
    if pred_eval.length ≠ num_samples_eval then
      Except.error "assert failed: len(pred_eval) == num_samples_eval"
    else if ¬ (∀ seq ∈ probas_eval, ∀ tok ∈ seq, tok.length = num_classes) then
      Except.error "assert failed: ak.all(ak.flatten(ak.count(probas_eval, axis=-1)) == num_classes)"
    else
      let st1 : Except String RunState :=
        if shouldComputeRepeatedRagged numReps model then
          match st.reps with
          | some repsArr =>
              let sout := obtain_repeated_probabilities_ragged_flattened fitted
                X_eval (numRepsNat numReps)
              match scatter3 repsArr score_indices sout.stack (numRepsNat numReps)
                  num_labels with
              | some repsArr' => Except.ok { st with reps := some repsArr' }
              | none => Except.error "could not broadcast repeated probabilities"
          | none => Except.error "repeated probabilities array was not allocated"
        else Except.ok st
      match st1 with
      | Except.error e => Except.error e
      | Except.ok st1 =>
        match scatterRows st1.preds score_indices pred_eval.flatten with
        | none => Except.error "could not broadcast predictions"
        | some preds' =>
          match scatter2 st1.probs score_indices probas_eval.flatten num_labels with
          | none => Except.error "could not broadcast probabilities"
          | some probs' =>
              Except.ok { st1 with preds := preds', probs := probs'
                                   le := some fitted.classes }

/-- One iteration of the fold loop of `run_for_ragged` (evaluation.py lines
173-216): gather the fold's flat token indices from the pre-computed
`grouped_indices`, slice train/eval at the instance level, then
`foldStepRaggedBody`. -/
def foldStepRagged (model : TaggerModel) (X y : List (List String))
    (grouped : List (List Nat)) (num_labels : Nat) (numReps : Option Int)
    (st : RunState) (split : List Nat × List Nat) : Except String RunState :=
  match gatherE grouped split.2, gatherE X split.1, gatherE X split.2,
      gatherE y split.1, gatherE y split.2 with
  | Except.ok evalGroups, Except.ok X_train, Except.ok X_eval,
      Except.ok y_train, Except.ok y_eval =>
      foldStepRaggedBody model num_labels numReps st split.2
        evalGroups.flatten X_train X_eval y_train y_eval
  | Except.error e, _, _, _, _ => Except.error e
  | _, Except.error e, _, _, _ => Except.error e
  | _, _, Except.error e, _, _ => Except.error e
  | _, _, _, Except.error e, _ => Except.error e
  | _, _, _, _, Except.error e => Except.error e

/-- `CrossValidationHelper.run_for_ragged` (evaluation.py lines 132-223):
token-level sizes and flat index space, `grouped_indices` precomputed
before the loop by unflattening `arange(num_samples)` with the per-instance
sizes, the *non-stratified* cross validator applied at the instance level,
and the fold loop scattering flattened outputs. -/
def CrossValidationHelper.runForRagged (rng : RNG) (n_splits : Nat)
    (numReps : Option Int) (X y : List (List String)) (model : TaggerModel) :
    Except String Result :=
  if n_splits < 1 then Except.error "assert failed: n_splits >= 1"
  else
    let sizes := X.map List.length
    let num_samples := sizes.sum
    let num_labels := (firstDedup y.flatten).length
    let should := shouldComputeRepeatedRagged numReps model
    let repsInit : Option (List (Option (List (List Rat)))) :=
      if should then
        some (List.replicate num_samples (none : Option (List (List Rat))))
      else none
    let grouped := chunksOf sizes (List.range num_samples)
    let kf := get_cross_validator n_splits false
    let st0 : RunState :=
      { preds := List.replicate num_samples none
        probs := List.replicate num_samples none
        reps := repsInit
        le := none }
    match cvSplit kf rng X.length y with
    | Except.error e => Except.error e
    | Except.ok splits =>
      match foldE (foldStepRagged model X y grouped num_labels numReps) st0 splits with
      | Except.error e => Except.error e
      | Except.ok st =>
          Except.ok { predictions := st.preds
                      probabilities := st.probs
                      repeated_probabilities := st.reps
                      le := st.le }

/-! ### ClassificationUncertainty (spec-modelled) -/

/-- Modelled from the spec: the `ClassificationUncertainty` detector's
`score(labels, probabilities, le)` is not under `src/` (only its test,
`src/tests/test_methods.py` lines 232-247, is).  Per the spec it is the
least-confidence score `1 - probabilities[i, class_index_of(noisy_label[i])]`
computed from the label encoding `le` (its `classes_` list), vectorised over
the instances. -/
def ClassificationUncertainty.score (labels : List String)
    (probabilities : List (List Rat)) (le : List String) : List Rat :=
  List.zipWith (fun lbl row => 1 - row.getD (le.indexOf lbl) 0) labels probabilities

section BasicLemmas

theorem writeAt_length (arr : List α) (i : Nat) (v : α) :
    (writeAt arr i v).length = arr.length :=
  List.length_set arr i v

theorem writePairs_length (arr : List α) (ps : List (Nat × α)) :
    (writePairs arr ps).length = arr.length := by
  induction ps generalizing arr with
  | nil => rfl
  | cons p ps ih =>
    simp only [writePairs, List.foldl_cons] at *
    rw [ih, writeAt_length]

theorem writeAt_get_self (arr : List α) (i : Nat) (v : α) (h : i < arr.length) :
    (writeAt arr i v)[i]? = some v := by
  unfold writeAt
  rw [List.getElem?_set_self h]

theorem writeAt_get_other (arr : List α) (i j : Nat) (v : α) (hne : i ≠ j) :
    (writeAt arr i v)[j]? = arr[j]? :=
  List.getElem?_set_ne hne

end BasicLemmas

/-! ### Concrete models used to instantiate the theorems -/

/-- A contract-breaking model that always returns a single prediction (and a
single probability row) regardless of the evaluation batch size, while its
fitted encoder sees both training labels. -/
def singlePredModel : Model :=
  { hasDropout := false
    fit := fun _ _ =>
      { predict := fun _ => ["x"]
        predict_proba := fun _ => [[6 / 10, 4 / 10]]
        predict_proba_dropout := fun _ _ => [[6 / 10, 4 / 10]]
        classes := ["x", "y"] } }

/-- A model whose fitted encoder has a single class, so its probability
matrix has a single column whatever the global label count is. -/
def oneColModel : Model :=
  { hasDropout := false
    fit := fun _ _ =>
      { predict := fun xs => xs.map (fun _ => "p")
        predict_proba := fun xs => xs.map (fun _ => [(1 : Rat)])
        predict_proba_dropout := fun _ xs => xs.map (fun _ => [(1 : Rat)])
        classes := ["p"] } }

/-- A well-behaved demonstration model: one prediction and one
`classes`-wide probability row per evaluation instance, the encoder fitted
from the fold's training labels, dropout declared, and seed-dependent
dropout probabilities. -/
def demoModel : Model :=
  { hasDropout := true
    fit := fun _ y_train =>
      let cs := firstDedup y_train
      { predict := fun xs => xs.map (fun _ => y_train.headD "p")
        predict_proba := fun xs => xs.map (fun _ => cs.map (fun _ => (1 : Rat)))
        predict_proba_dropout := fun _ xs =>
          xs.map (fun _ => cs.map (fun _ => (2 : Rat)))
        classes := cs } }

/-- `demoModel` with the dropout capability switched off. -/
def noDropModel : Model :=
  { demoModel with hasDropout := false }

/-- A well-behaved demonstration sequence tagger: echoes each token as its
prediction and emits one `classes`-wide row per token. -/
def demoTagger : TaggerModel :=
  { hasDropout := false
    fit := fun _ y_train =>
      let cs := firstDedup y_train.flatten
      { predict := fun xs => xs.map (fun seq => seq.map (fun tok => tok ++ "!"))
        predict_proba := fun xs =>
          xs.map (fun seq => seq.map (fun _ => cs.map (fun _ => (1 : Rat))))
        predict_proba_dropout := fun _ xs =>
          xs.map (fun seq => seq.map (fun _ => cs.map (fun _ => (1 : Rat))))
        classes := cs } }

/-- A fitted model used to instantiate the sampler theorems directly. -/
def demoFitted : FittedModel :=
  { predict := fun xs => xs
    predict_proba := fun xs => xs.map (fun _ => [(1 : Rat), 2])
    predict_proba_dropout := fun seed xs =>
      xs.map (fun _ => [(Rat.mk' (Int.ofNat seed) 1 (by decide) (by simp)), 2])
    classes := ["a", "b"] }

/-! ### Claim theorems -/

/-- C8: for fold count 1, the cross validator is `SingeSplitCV`, whose
single split is an identity round trip: the eval indices, the train indices
and the full index range `[0, n)` all coincide. -/
theorem c8_k1_split_is_identity_round_trip (rng : RNG) (n : Nat)
    (strat : Bool) (y : List String) :
    cvSplit (get_cross_validator 1 strat) rng n y =
      Except.ok [(List.range n, List.range n)] := by
  simp [get_cross_validator, cvSplit, SingeSplitCV.split]

/-- C1 (code evaluated at the failing input): a model returning a single
prediction (with a matching single probability row) for a two-element eval
fold does not make `run` abort; numpy's length-1 broadcast silently pads
both eval slots with that prediction, contradicting the claim that a
prediction/eval-count mismatch is fatal.  The `assert` at evaluation.py
line 110 compares `len(pred_eval)` with itself and can never fire. -/
theorem c1_short_predictions_padded_not_fatal :
    ((singlePredModel.fit ["a", "b"] ["x", "y"]).predict ["a", "b"]).length = 1
    ∧ (CrossValidationHelper.run idRNG 1 (some 50) ["a", "b"] ["x", "y"]
        singlePredModel).map Result.predictions
      = Except.ok [some "x", some "x"] := by
  constructor
  · rfl
  · decide

/-- C2 (counterexample): with two distinct global labels but a fold model
whose encoder holds a single class, the fold's probability matrix has one
column, not the global two — yet `run` completes, broadcasting the single
column across both global columns instead of aborting; the per-fold shape
`assert` compares against the fold-local `len(model.label_encoder().classes_)`,
not the global class count. -/
theorem c2_one_column_matrix_broadcast_not_fatal :
    (∀ row ∈ (oneColModel.fit ["a", "b"] ["p", "q"]).predict_proba ["a", "b"],
      row.length = 1)
    ∧ (firstDedup ["p", "q"]).length = 2
    ∧ (CrossValidationHelper.run idRNG 1 (some 50) ["a", "b"] ["p", "q"]
        oneColModel).map Result.probabilities
      = Except.ok [some [1, 1], some [1, 1]] := by
  refine ⟨?_, by decide, by decide⟩
  intro row hrow
  simp only [oneColModel, List.map_cons, List.map_nil, List.mem_cons,
    List.not_mem_nil, or_false] at hrow
  rcases hrow with h | h <;> simp [h]

/-- C9 (spec-modelled): the `ClassificationUncertainty` score at instance
`i` is exactly `1 - probabilities[i, class_index_of(noisy_label[i])]`, the
class index taken from the instance's asserted noisy label under the label
encoding, not from the argmax prediction. -/
theorem c9_uncertainty_is_one_minus_noisy_label_probability
    (labels : List String) (probabilities : List (List Rat))
    (le : List String) (i : Nat)
    (hi : i < labels.length) (hp : i < probabilities.length) :
    (ClassificationUncertainty.score labels probabilities le)[i]? =
      some (1 - (probabilities.getD i []).getD
        (le.indexOf (labels.getD i "")) 0) := by
  unfold ClassificationUncertainty.score
  rw [List.getElem?_zipWith]
  rw [List.getElem?_eq_getElem hi, List.getElem?_eq_getElem hp]
  simp [List.getD, List.getElem?_eq_getElem hi, List.getElem?_eq_getElem hp]

/-- Witness for C9 at a concrete input: three instances, three classes. -/
theorem c9_uncertainty_witness :
    (ClassificationUncertainty.score ["B", "A", "C"]
        [[1 / 2, 3 / 10, 1 / 5], [1 / 10, 1 / 10, 4 / 5], [0, 1 / 4, 3 / 4]]
        ["A", "B", "C"])[1]? =
      some (1 - ([[(1 : Rat) / 2, 3 / 10, 1 / 5], [1 / 10, 1 / 10, 4 / 5],
        [0, 1 / 4, 3 / 4]].getD 1 []).getD
          (["A", "B", "C"].indexOf (["B", "A", "C"].getD 1 "")) 0) :=
  c9_uncertainty_is_one_minus_noisy_label_probability
    ["B", "A", "C"]
    [[1 / 2, 3 / 10, 1 / 5], [1 / 10, 1 / 10, 4 / 5], [0, 1 / 4, 3 / 4]]
    ["A", "B", "C"] 1 (by decide) (by decide)

section SamplerLemmas

/-- The collected samples list: entry `t` is the dropout prediction after
reseeding with `t + 23`. -/
theorem sampler_samples_getElem (f : Nat → List (List Rat)) (T t : Nat)
    (ht : t < T) :
    ((List.range T).map f)[t]? = some (f t) := by
  rw [List.getElem?_map, List.getElem?_range ht]
  rfl

theorem swapAxes01_length [Inhabited α] (l : List (List α)) :
    (swapAxes01 l).length = (l.headD []).length := by
  simp [swapAxes01]

theorem swapAxes01_getElem [Inhabited α] (l : List (List α)) (i : Nat)
    (hi : i < (l.headD []).length) :
    (swapAxes01 l)[i]? = some (l.map (fun row => row.getD i default)) := by
  unfold swapAxes01
  rw [List.getElem?_map, List.getElem?_range hi]
  rfl

end SamplerLemmas

/-- C4: for `T > 0` repetitions and a model producing `|X|`-row,
`C`-column matrices under dropout, `obtain_repeated_probabilities_flat`
returns a stack of shape `(|X|, T, C)` whose entry `[i][t]` is exactly the
row `i` of the matrix predicted after reseeding with seed `t + 23`; each
repetition is thus reproducible in isolation from the seed formula. -/
theorem c4_repeated_probabilities_shape_and_seed_formula
    (fitted : FittedModel) (X : List String) (T C : Nat)
    (hT : 0 < T)
    (hn : ∀ seed, (fitted.predict_proba_dropout seed X).length = X.length)
    (hc : ∀ seed, ∀ row ∈ fitted.predict_proba_dropout seed X, row.length = C) :
    (obtain_repeated_probabilities_flat fitted X T).stack.length = X.length
    ∧ (∀ mats ∈ (obtain_repeated_probabilities_flat fitted X T).stack,
        mats.length = T ∧ ∀ row ∈ mats, row.length = C)
    ∧ ∀ i t, i < X.length → t < T →
        ((obtain_repeated_probabilities_flat fitted X T).stack[i]?.bind
            (fun mats => mats[t]?))
          = (fitted.predict_proba_dropout (t + 23) X)[i]? := by
  unfold obtain_repeated_probabilities_flat obtainRepeatedWith
  simp only
  set f : Nat → List (List Rat) :=
    fun t => fitted.predict_proba_dropout (t + 23) X with hf
  have hhead : (((List.range T).map f).headD []).length = X.length := by
    obtain ⟨T', rfl⟩ := Nat.exists_eq_succ_of_ne_zero (Nat.pos_iff_ne_zero.mp hT)
    rw [List.range_succ_eq_map]
    simp only [List.map_cons, List.headD_cons]
    exact hn 23
  have hlenf : ∀ t, (f t).length = X.length := fun t => hn (t + 23)
  refine ⟨?_, ?_, ?_⟩
  · rw [swapAxes01_length, hhead]
  · intro mats hmats
    unfold swapAxes01 at hmats
    rw [hhead] at hmats
    obtain ⟨i, hi, rfl⟩ := List.mem_map.mp hmats
    have hiX : i < X.length := List.mem_range.mp hi
    constructor
    · simp
    · intro row hrow
      obtain ⟨sample, hsample, rfl⟩ := List.mem_map.mp hrow
      obtain ⟨t, ht, rfl⟩ := List.mem_map.mp hsample
      have hlt : i < (f t).length := by rw [hlenf t]; exact hiX
      rw [List.getD_eq_getElem _ _ hlt]
      exact hc (t + 23) _ (List.getElem_mem hlt)
  · intro i t hiX ht
    have hi' : i < (((List.range T).map f).headD []).length := by
      rw [hhead]; exact hiX
    rw [swapAxes01_getElem _ _ hi']
    simp only [Option.some_bind]
    rw [List.getElem?_map, List.getElem?_map, List.getElem?_range ht]
    simp only [Option.map]
    have hlt : i < (f t).length := by rw [hlenf t]; exact hiX
    rw [List.getD_eq_getElem _ _ hlt, List.getElem?_eq_getElem hlt]

/-- Witness for C4: two instances, two repetitions, two classes. -/
theorem c4_repeated_probabilities_witness :
    (obtain_repeated_probabilities_flat demoFitted ["u", "v"] 2).stack.length
      = ["u", "v"].length :=
  (c4_repeated_probabilities_shape_and_seed_formula demoFitted ["u", "v"] 2 2
    (by decide)
    (fun seed => rfl)
    (fun seed row hrow => by
      simp only [demoFitted, List.mem_map] at hrow
      obtain ⟨x, hx, rfl⟩ := hrow
      rfl)).1

/-- The collected samples list evaluated with a default: entry `a` for
`a < T`. -/
theorem sampler_samples_getD (f : Nat → List (List Rat)) (T a : Nat)
    (d : List (List Rat)) (ha : a < T) :
    ((List.range T).map f).getD a d = f a := by
  rw [List.getD_eq_getElem?_getD, sampler_samples_getElem f T a ha]
  rfl

/-- C6: the degeneracy check of `obtain_repeated_probabilities_flat` never
alters the returned sample stack (the stack is the same whatever closeness
test is plugged in, so in particular with the check's `np.allclose`), and a
warning is emitted precisely when two distinct repetitions are numerically
indistinguishable; warnings are data on the side, never an error, so the
run is not aborted. -/
theorem c6_degeneracy_warning_is_nonfatal_and_unaltering
    (close : List (List Rat) → List (List Rat) → Bool)
    (fitted : FittedModel) (X : List String) (T : Nat) :
    (obtainRepeatedWith close fitted X T).stack
      = (obtain_repeated_probabilities_flat fitted X T).stack
    ∧ ((obtain_repeated_probabilities_flat fitted X T).warns ≠ [] ↔
        ∃ a, a < T ∧ ∃ b, b < T ∧ a ≠ b ∧
          npAllClose (fitted.predict_proba_dropout (a + 23) X)
            (fitted.predict_proba_dropout (b + 23) X) = true) := by
  constructor
  · rfl
  · unfold obtain_repeated_probabilities_flat obtainRepeatedWith
    simp only
    set f : Nat → List (List Rat) :=
      fun t => fitted.predict_proba_dropout (t + 23) X with hf
    rw [Ne, List.flatten_eq_nil_iff]
    push_neg
    constructor
    · rintro ⟨l, hl, hlne⟩
      obtain ⟨a, ha, rfl⟩ := List.mem_map.mp hl
      rw [Ne, List.map_eq_nil_iff, List.filter_eq_nil_iff] at hlne
      push_neg at hlne
      obtain ⟨b, hb, hpb⟩ := hlne
      have ha' := List.mem_range.mp ha
      have hb' := List.mem_range.mp hb
      rw [Bool.and_eq_true] at hpb
      refine ⟨a, ha', b, hb', ?_, ?_⟩
      · exact fun h => (bne_iff_ne.mp hpb.1) h.symm
      · have := hpb.2
        rwa [sampler_samples_getD f T a _ ha',
          sampler_samples_getD f T b _ hb'] at this
    · rintro ⟨a, ha, b, hb, hne, hclose⟩
      refine ⟨_, List.mem_map_of_mem _ (List.mem_range.mpr ha), ?_⟩
      rw [Ne, List.map_eq_nil_iff, List.filter_eq_nil_iff]
      push_neg
      refine ⟨b, List.mem_range.mpr hb, ?_⟩
      rw [Bool.and_eq_true]
      constructor
      · exact bne_iff_ne.mpr (fun h => hne h.symm)
      · rw [sampler_samples_getD f T a _ ha, sampler_samples_getD f T b _ hb]
        exact hclose

section FoldLemmas

theorem foldE_nil {σ α ε : Type} (f : σ → α → Except ε σ) (st : σ) :
    foldE f st [] = Except.ok st := rfl

theorem foldE_cons {σ α ε : Type} (f : σ → α → Except ε σ) (st : σ)
    (x : α) (xs : List α) :
    foldE f st (x :: xs) =
      match f st x with
      | Except.ok st' => foldE f st' xs
      | Except.error e => Except.error e := rfl

theorem foldE_ok_of_mem {σ α ε : Type} {f : σ → α → Except ε σ} {st0 st : σ}
    {l : List α} (h : foldE f st0 l = Except.ok st) :
    ∀ x ∈ l, ∃ s s', f s x = Except.ok s' := by
  induction l generalizing st0 with
  | nil => intro x hx; cases hx
  | cons a as ih =>
    intro x hx
    rw [foldE_cons] at h
    cases hfa : f st0 a with
    | error e => rw [hfa] at h; exact Except.noConfusion h
    | ok st1 =>
      rw [hfa] at h
      rcases List.mem_cons.mp hx with rfl | hx'
      · exact ⟨st0, st1, hfa⟩
      · exact ih h x hx'

theorem foldE_invariant {σ α ε : Type} {f : σ → α → Except ε σ} {P : σ → Prop}
    (hstep : ∀ s x s', f s x = Except.ok s' → P s → P s') :
    ∀ {l : List α} {st0 st : σ},
      foldE f st0 l = Except.ok st → P st0 → P st := by
  intro l
  induction l with
  | nil =>
    intro st0 st h h0
    rw [foldE_nil] at h
    cases h
    exact h0
  | cons a as ih =>
    intro st0 st h h0
    rw [foldE_cons] at h
    cases hfa : f st0 a with
    | error e => rw [hfa] at h; exact Except.noConfusion h
    | ok st1 =>
      rw [hfa] at h
      exact ih h (hstep st0 a st1 hfa h0)

theorem foldE_append_last {σ α ε : Type} {f : σ → α → Except ε σ}
    {st0 st : σ} {l : List α} {p : α}
    (h : foldE f st0 (l ++ [p]) = Except.ok st) :
    ∃ s, f s p = Except.ok st := by
  induction l generalizing st0 with
  | nil =>
    rw [List.nil_append, foldE_cons] at h
    cases hfa : f st0 p with
    | error e => rw [hfa] at h; exact Except.noConfusion h
    | ok st1 =>
      rw [hfa] at h
      rw [show (match Except.ok st1 with
          | Except.ok st' => foldE f st' []
          | Except.error e => (Except.error e : Except ε σ))
          = foldE f st1 [] from rfl, foldE_nil] at h
      cases h
      exact ⟨st0, hfa⟩
  | cons a as ih =>
    rw [List.cons_append, foldE_cons] at h
    cases hfa : f st0 a with
    | error e => rw [hfa] at h; exact Except.noConfusion h
    | ok st1 =>
      rw [hfa] at h
      exact ih h

theorem foldE_congr {σ α ε : Type} {f g : σ → α → Except ε σ}
    (hfg : ∀ s x, f s x = g s x) :
    ∀ (l : List α) (st0 : σ), foldE f st0 l = foldE g st0 l := by
  intro l
  induction l with
  | nil => intro st0; rfl
  | cons a as ih =>
    intro st0
    rw [foldE_cons, foldE_cons, hfg]
    cases g st0 a with
    | error e => rfl
    | ok st1 => exact ih st1

end FoldLemmas

section FoldStepLemmas

theorem foldStepBody_reps_isSome {model : Model} {nl : Nat} {nr : Option Int}
    {sampler : FittedModel → List String → Nat → SamplerOut}
    {st st' : RunState} {ev : List Nat} {Xt Xe yt ye : List String}
    (h : foldStepBody model nl nr sampler st ev Xt Xe yt ye = Except.ok st') :
    st'.reps.isSome = st.reps.isSome := by
  unfold foldStepBody at h
  simp only [] at h
  repeat' split at h
  all_goals try exact Except.noConfusion h
  all_goals (injection h with h; subst h)
  all_goals simp only [RunState.mk.injEq]
  rename_i g1 g2 g3 g4 g5 st1E st1 heq2 xa preds1 heqp xb probs1 heqq
  split at heq2
  · split at heq2
    · split at heq2
      · injection heq2 with heq2
        subst heq2
        simp_all
      · exact Except.noConfusion heq2
    · exact Except.noConfusion heq2
  · injection heq2 with heq2
    subst heq2
    rfl

theorem foldStep_reps_isSome {model : Model} {X y : List String} {nl : Nat}
    {nr : Option Int} {sampler : FittedModel → List String → Nat → SamplerOut}
    {st st' : RunState} {split : List Nat × List Nat}
    (h : foldStep model X y nl nr sampler st split = Except.ok st') :
    st'.reps.isSome = st.reps.isSome := by
  unfold foldStep at h
  repeat' split at h
  all_goals try exact Except.noConfusion h
  exact foldStepBody_reps_isSome h

theorem foldStepBody_le {model : Model} {nl : Nat} {nr : Option Int}
    {sampler : FittedModel → List String → Nat → SamplerOut}
    {st st' : RunState} {ev : List Nat} {Xt Xe yt ye : List String}
    (h : foldStepBody model nl nr sampler st ev Xt Xe yt ye = Except.ok st') :
    st'.le = some (model.fit Xt yt).classes := by
  unfold foldStepBody at h
  simp only [] at h
  repeat' split at h
  all_goals try exact Except.noConfusion h
  injection h with h
  subst h
  rfl

theorem foldStep_le {model : Model} {X y : List String} {nl : Nat}
    {nr : Option Int} {sampler : FittedModel → List String → Nat → SamplerOut}
    {st st' : RunState} {split : List Nat × List Nat} {Xt yt : List String}
    (h : foldStep model X y nl nr sampler st split = Except.ok st')
    (hXt : gatherE X split.1 = Except.ok Xt)
    (hyt : gatherE y split.1 = Except.ok yt) :
    st'.le = some (model.fit Xt yt).classes := by
  unfold foldStep at h
  repeat' split at h
  all_goals try exact Except.noConfusion h
  rename_i xa xb xc xd Xt' Xe' yt' ye' hXt' hXe' hyt' hye'
  rw [hXt] at hXt'
  rw [hyt] at hyt'
  injection hXt' with hXt'
  injection hyt' with hyt'
  subst hXt'
  subst hyt'
  exact foldStepBody_le h

theorem foldStepRaggedBody_le {model : TaggerModel} {nl : Nat}
    {nr : Option Int} {st st' : RunState} {ev sc : List Nat}
    {Xt Xe yt ye : List (List String)}
    (h : foldStepRaggedBody model nl nr st ev sc Xt Xe yt ye = Except.ok st') :
    st'.le = some (model.fit Xt yt).classes := by
  unfold foldStepRaggedBody at h
  simp only [] at h
  repeat' split at h
  all_goals try exact Except.noConfusion h
  injection h with h
  subst h
  rfl

theorem foldStepRagged_le {model : TaggerModel} {X y : List (List String)}
    {grouped : List (List Nat)} {nl : Nat} {nr : Option Int}
    {st st' : RunState} {split : List Nat × List Nat}
    {Xt yt : List (List String)}
    (h : foldStepRagged model X y grouped nl nr st split = Except.ok st')
    (hXt : gatherE X split.1 = Except.ok Xt)
    (hyt : gatherE y split.1 = Except.ok yt) :
    st'.le = some (model.fit Xt yt).classes := by
  unfold foldStepRagged at h
  repeat' split at h
  all_goals try exact Except.noConfusion h
  rename_i evalGroups X_train X_eval y_train y_eval heq1 heq2 heq3 heq4 heq5
  rw [hXt] at heq2
  rw [hyt] at heq4
  injection heq2 with heq2
  injection heq4 with heq4
  subst heq2 heq4
  exact foldStepRaggedBody_le h

theorem foldStep_sampler_congr {model : Model} {X y : List String} {nl : Nat}
    {nr : Option Int}
    (hfalse : shouldComputeRepeated nr model = false)
    (s₁ s₂ : FittedModel → List String → Nat → SamplerOut)
    (st : RunState) (split : List Nat × List Nat) :
    foldStep model X y nl nr s₁ st split = foldStep model X y nl nr s₂ st split := by
  unfold foldStep foldStepBody
  simp only [hfalse, Bool.false_eq_true, if_false]

theorem shouldComputeRepeated_eq_true_iff (numReps : Option Int) (model : Model) :
    shouldComputeRepeated numReps model = true ↔
      ((∃ r, numReps = some r ∧ 0 < r) ∧ model.hasDropout = true) := by
  unfold shouldComputeRepeated
  cases numReps with
  | none => simp
  | some r =>
    rw [Bool.and_eq_true]
    constructor
    · rintro ⟨h1, h2⟩
      exact ⟨⟨r, rfl, of_decide_eq_true h1⟩, h2⟩
    · rintro ⟨⟨r', hr', hpos⟩, h2⟩
      injection hr' with hr'
      subst hr'
      exact ⟨decide_eq_true hpos, h2⟩

end FoldStepLemmas

/-- C5: for a completed `run`, the `Result`'s repeated-probabilities field
is populated exactly when the caller requested `num_repetitions > 0` (not
`None`) and the model declares dropout support; in every other case the
field is `None` and the sampler is never invoked (the run's outcome does
not depend on the sampler at all). -/
theorem c5_repeated_probabilities_iff_requested_and_dropout
    (sampler : FittedModel → List String → Nat → SamplerOut)
    (rng : RNG) (n_splits : Nat) (numReps : Option Int)
    (X y : List String) (model : Model) (res : Result)
    (hrun : runWith sampler rng n_splits numReps X y model = Except.ok res) :
    (res.repeated_probabilities.isSome = true ↔
      ((∃ r, numReps = some r ∧ 0 < r) ∧ model.hasDropout = true))
    ∧ (¬ ((∃ r, numReps = some r ∧ 0 < r) ∧ model.hasDropout = true) →
        ∀ s₂, runWith sampler rng n_splits numReps X y model
          = runWith s₂ rng n_splits numReps X y model) := by
  constructor
  · rw [← shouldComputeRepeated_eq_true_iff]
    unfold runWith at hrun
    split at hrun
    · exact Except.noConfusion hrun
    · simp only [] at hrun
      split at hrun
      · exact Except.noConfusion hrun
      · split at hrun
        · exact Except.noConfusion hrun
        · injection hrun with hrun
          subst hrun
          rename_i xa splitsL heqsp xb st hfold
          simp only []
          have hinv : st.reps.isSome = shouldComputeRepeated numReps model :=
            @foldE_invariant _ _ _ _
              (fun s => s.reps.isSome = shouldComputeRepeated numReps model)
              (fun s x s' hs hP => by
                show s'.reps.isSome = _
                rw [foldStep_reps_isSome hs]
                exact hP)
              _ _ _ hfold
              (by cases hc : shouldComputeRepeated numReps model <;> simp [hc])
          rw [hinv]
  · intro hncond s₂
    have hfalse : shouldComputeRepeated numReps model = false := by
      rw [Bool.eq_false_iff, Ne, shouldComputeRepeated_eq_true_iff]
      exact hncond
    unfold runWith
    split
    · rfl
    · simp only []
      split
      · rfl
      · rw [foldE_congr (fun s x => foldStep_sampler_congr hfalse sampler s₂ s x)]

/-- Witness for C5 at a concrete input: repetitions requested but the model
declares no dropout, so the completed run's field is `None`. -/
theorem c5_repeated_probabilities_witness :
    ((Result.mk [some "p", some "p", some "p", some "p"]
        [some [1, 1], some [1, 1], some [1, 1], some [1, 1]]
        none (some ["p", "q"])).repeated_probabilities.isSome = true ↔
      ((∃ r, (some 50 : Option Int) = some r ∧ 0 < r) ∧
        noDropModel.hasDropout = true)) :=
  (c5_repeated_probabilities_iff_requested_and_dropout
    obtain_repeated_probabilities_flat idRNG 2 (some 50)
    ["a", "b", "c", "d"] ["p", "q", "p", "q"] noDropModel _ (by decide)).1

/-- C10: the label encoding stored in a completed run's `Result` is the one
the model holds after the loop, i.e. the encoder fitted on the *last*
fold's training slice only; encoders fitted by earlier folds are
overwritten.  This holds for both pipelines: `CrossValidationHelper.run`
(embedded as `runWith`) and `CrossValidationHelper.runForRagged`. -/
theorem c10_result_le_is_last_fold_encoder :
    (∀ (sampler : FittedModel → List String → Nat → SamplerOut)
        (rng : RNG) (n_splits : Nat) (numReps : Option Int)
        (X y : List String) (model : Model) (res : Result)
        (splits : List (List Nat × List Nat)) (p : List Nat × List Nat)
        (X_train y_train : List String),
        runWith sampler rng n_splits numReps X y model = Except.ok res →
        cvSplit (get_cross_validator n_splits true) rng X.length y
          = Except.ok splits →
        ∀ (hne : splits ≠ []),
        splits.getLast hne = p →
        gatherE X p.1 = Except.ok X_train →
        gatherE y p.1 = Except.ok y_train →
        res.le = some (model.fit X_train y_train).classes)
    ∧ (∀ (rng : RNG) (n_splits : Nat) (numReps : Option Int)
        (X y : List (List String)) (model : TaggerModel) (res : Result)
        (splits : List (List Nat × List Nat)) (p : List Nat × List Nat)
        (X_train y_train : List (List String)),
        CrossValidationHelper.runForRagged rng n_splits numReps X y model
          = Except.ok res →
        cvSplit (get_cross_validator n_splits false) rng X.length y
          = Except.ok splits →
        ∀ (hne : splits ≠ []),
        splits.getLast hne = p →
        gatherE X p.1 = Except.ok X_train →
        gatherE y p.1 = Except.ok y_train →
        res.le = some (model.fit X_train y_train).classes) := by
  constructor
  · intro sampler rng n_splits numReps X y model res splits p X_train y_train
      hrun hsplits hne hlast hXt hyt
    unfold runWith at hrun
    split at hrun
    · exact Except.noConfusion hrun
    · simp only [] at hrun
      split at hrun
      · rename_i e heq
        rw [hsplits] at heq
        exact Except.noConfusion heq
      · rename_i splitsL heq
        rw [hsplits] at heq
        injection heq with heq
        subst heq
        split at hrun
        · exact Except.noConfusion hrun
        · injection hrun with hrun
          subst hrun
          rename_i st hfold
          simp only []
          have hdecomp : splits.dropLast ++ [p] = splits := by
            rw [← hlast]
            exact List.dropLast_append_getLast hne
          rw [← hdecomp] at hfold
          obtain ⟨s, hs⟩ := foldE_append_last hfold
          exact foldStep_le hs hXt hyt
  · intro rng n_splits numReps X y model res splits p X_train y_train
      hrun hsplits hne hlast hXt hyt
    unfold CrossValidationHelper.runForRagged at hrun
    split at hrun
    · exact Except.noConfusion hrun
    · simp only [] at hrun
      split at hrun
      · rename_i e heq
        rw [hsplits] at heq
        exact Except.noConfusion heq
      · rename_i splitsL heq
        rw [hsplits] at heq
        injection heq with heq
        subst heq
        split at hrun
        · exact Except.noConfusion hrun
        · injection hrun with hrun
          subst hrun
          rename_i st hfold
          simp only []
          have hdecomp : splits.dropLast ++ [p] = splits := by
            rw [← hlast]
            exact List.dropLast_append_getLast hne
          rw [← hdecomp] at hfold
          obtain ⟨s, hs⟩ := foldE_append_last hfold
          exact foldStepRagged_le hs hXt hyt

/-- Witness for C10: for the flat pipeline, two stratified folds over four
instances store the encoder fitted on the last fold's training slice
`["a", "b"] / ["p", "q"]`; for the ragged pipeline, two non-stratified
instance-level folds over two sequences store the encoder fitted on the
last fold's training slice `[["a", "b"]] / [["x", "x"]]`. -/
theorem c10_result_le_witness :
    ((Result.mk [some "p", some "p", some "p", some "p"]
          [some [1, 1], some [1, 1], some [1, 1], some [1, 1]]
          none (some ["p", "q"])).le
        = some ((noDropModel.fit ["a", "b"] ["p", "q"]).classes))
    ∧ ((Result.mk [some "a!", some "b!", some "c!"]
          [some [(1 : Rat)], some [1], some [1]]
          none (some ["x"])).le
        = some ((demoTagger.fit [["a", "b"]] [["x", "x"]]).classes)) :=
  ⟨c10_result_le_is_last_fold_encoder.1 obtain_repeated_probabilities_flat
      idRNG 2 (some 50) ["a", "b", "c", "d"] ["p", "q", "p", "q"] noDropModel
      (Result.mk [some "p", some "p", some "p", some "p"]
        [some [1, 1], some [1, 1], some [1, 1], some [1, 1]]
        none (some ["p", "q"]))
      [([2, 3], [0, 1]), ([0, 1], [2, 3])] ([0, 1], [2, 3])
      ["a", "b"] ["p", "q"]
      (by decide) (by decide) (by decide) (by decide) (by decide) (by decide),
    c10_result_le_is_last_fold_encoder.2 idRNG 2 none
      [["a", "b"], ["c"]] [["x", "x"], ["x"]] demoTagger
      (Result.mk [some "a!", some "b!", some "c!"]
        [some [(1 : Rat)], some [1], some [1]]
        none (some ["x"]))
      [([1], [0]), ([0], [1])] (([0], [1]))
      [["a", "b"]] [["x", "x"]]
      (by decide) (by decide) (by decide) (by decide) (by decide) (by decide)⟩

section ScatterLemmas

theorem mapM_option_some_of_mem {α β : Type} {f : α → Option β} :
    ∀ {l : List α} {out : List β}, l.mapM f = some out →
      ∀ x ∈ l, ∃ y, f x = some y := by
  intro l
  induction l with
  | nil => intro out h x hx; cases hx
  | cons a as ih =>
    intro out h x hx
    rw [List.mapM_cons] at h
    simp only [Option.bind_eq_bind, Option.bind_eq_some] at h
    obtain ⟨b, hfa, bs, hrest, _⟩ := h
    rcases List.mem_cons.mp hx with rfl | hx'
    · exact ⟨b, hfa⟩
    · exact ih hrest x hx'

theorem broadcastCols_ok {α : Type} {w : Nat} {row r : List α}
    (h : broadcastCols w row = some r) :
    row.length = w ∨ ∃ v, row = [v] := by
  unfold broadcastCols at h
  split at h
  · left; assumption
  · split at h
    · right; exact ⟨_, rfl⟩
    · exact Option.noConfusion h

theorem scatterRows_ok_shape {α : Type} {arr : List (Option α)}
    {idxs : List Nat} {vals : List α} {out : List (Option α)}
    (h : scatterRows arr idxs vals = some out) :
    vals.length = idxs.length ∨ ∃ v, vals = [v] := by
  unfold scatterRows at h
  split at h
  · exact Option.noConfusion h
  · split at h
    · left; assumption
    · split at h
      · right; exact ⟨_, rfl⟩
      · exact Option.noConfusion h

theorem scatter2_ok_rows {arr : List (Option (List Rat))} {idxs : List Nat}
    {vals : List (List Rat)} {w : Nat} {out : List (Option (List Rat))}
    (h : scatter2 arr idxs vals w = some out) :
    ∀ row ∈ vals, row.length = w ∨ ∃ v, row = [v] := by
  unfold scatter2 at h
  simp only [Option.bind_eq_bind, Option.bind_eq_some] at h
  obtain ⟨rows, hrows, _⟩ := h
  intro row hrow
  obtain ⟨r, hr⟩ := mapM_option_some_of_mem hrows row hrow
  exact broadcastCols_ok hr

theorem mapM_option_length {α β : Type} {f : α → Option β} :
    ∀ {l : List α} {out : List β}, l.mapM f = some out →
      out.length = l.length := by
  intro l
  induction l with
  | nil =>
    intro out h
    rw [show List.mapM f [] = (pure [] : Option (List β)) from rfl] at h
    injection h with h
    rw [← h]
    rfl
  | cons a as ih =>
    intro out h
    rw [List.mapM_cons] at h
    simp only [Option.bind_eq_bind, Option.bind_eq_some] at h
    obtain ⟨b, _, bs, hbs, hout⟩ := h
    injection hout with hout
    rw [← hout]
    simp [ih hbs]

theorem scatter2_ok_shape {arr : List (Option (List Rat))} {idxs : List Nat}
    {vals : List (List Rat)} {w : Nat} {out : List (Option (List Rat))}
    (h : scatter2 arr idxs vals w = some out) :
    vals.length = idxs.length ∨ ∃ v, vals = [v] := by
  unfold scatter2 at h
  simp only [Option.bind_eq_bind, Option.bind_eq_some] at h
  obtain ⟨rows, hrows, hsc⟩ := h
  have hlen : rows.length = vals.length := mapM_option_length hrows
  rcases scatterRows_ok_shape hsc with h1 | ⟨v, hv⟩
  · left; rw [← hlen]; exact h1
  · have : vals.length = 1 := by rw [← hlen, hv]; rfl
    obtain ⟨a, ha⟩ := List.length_eq_one.mp this
    right; exact ⟨a, ha⟩

end ScatterLemmas

theorem foldStepBody_columns {model : Model} {nl : Nat} {nr : Option Int}
    {sampler : FittedModel → List String → Nat → SamplerOut}
    {st st' : RunState} {ev : List Nat} {Xt Xe yt ye : List String}
    (h : foldStepBody model nl nr sampler st ev Xt Xe yt ye = Except.ok st')
    (hne : ev ≠ []) :
    (∀ row ∈ (model.fit Xt yt).predict_proba Xe,
      row.length = (model.fit Xt yt).classes.length)
    ∧ ((model.fit Xt yt).classes.length = nl
        ∨ (model.fit Xt yt).classes.length = 1) := by
  unfold foldStepBody at h
  simp only [] at h
  repeat' split at h
  all_goals try exact Except.noConfusion h
  rename_i g1 g2 g3 g4 g5 st1E st1 heq2 xa preds1 heqp xb probs1 heqq
  obtain ⟨hlen, hrows⟩ := not_not.mp g5
  refine ⟨hrows, ?_⟩
  have hpredne : (model.fit Xt yt).predict Xe ≠ [] := by
    rcases scatterRows_ok_shape heqp with h1 | ⟨v, hv⟩
    · intro hnil
      rw [hnil] at h1
      exact hne (List.eq_nil_of_length_eq_zero h1.symm)
    · intro hnil
      rw [hnil] at hv
      exact List.noConfusion hv
  have hpne : (model.fit Xt yt).predict_proba Xe ≠ [] := by
    intro hnil
    rw [hnil] at hlen
    exact hpredne (List.eq_nil_of_length_eq_zero hlen.symm)
  obtain ⟨row0, hrow0⟩ := List.exists_mem_of_ne_nil _ hpne
  rcases scatter2_ok_rows heqq row0 hrow0 with hc1 | ⟨v, hv⟩
  · left
    rw [← hrows row0 hrow0]
    exact hc1
  · right
    rw [← hrows row0 hrow0, hv]
    rfl

theorem foldStep_columns {model : Model} {X y : List String} {nl : Nat}
    {nr : Option Int} {sampler : FittedModel → List String → Nat → SamplerOut}
    {st st' : RunState} {split : List Nat × List Nat}
    {X_train y_train X_eval : List String}
    (h : foldStep model X y nl nr sampler st split = Except.ok st')
    (hne : split.2 ≠ [])
    (hXt : gatherE X split.1 = Except.ok X_train)
    (hyt : gatherE y split.1 = Except.ok y_train)
    (hXe : gatherE X split.2 = Except.ok X_eval) :
    (∀ row ∈ (model.fit X_train y_train).predict_proba X_eval,
      row.length = (model.fit X_train y_train).classes.length)
    ∧ ((model.fit X_train y_train).classes.length = nl
        ∨ (model.fit X_train y_train).classes.length = 1) := by
  unfold foldStep at h
  repeat' split at h
  all_goals try exact Except.noConfusion h
  rename_i xa xb xc xd Xt' Xe' yt' ye' hXt' hXe' hyt' hye'
  rw [hXt] at hXt'
  rw [hXe] at hXe'
  rw [hyt] at hyt'
  injection hXt' with hXt'
  injection hXe' with hXe'
  injection hyt' with hyt'
  subst hXt'
  subst hXe'
  subst hyt'
  exact foldStepBody_columns h hne

/-- C2 (amended): `run` fixes the probability array's width before the loop
as the global distinct-label count of `y_noisy`, but each fold's shape
`assert` compares the eval matrix against the fold model's *own* encoder
class count; on any completed fold with a nonempty eval set, every matrix
row has the fold-local class count and that count equals the global count
or is `1` (the single-column case being silently broadcast rather than
fatal). -/
theorem c2_columns_constraint_on_completed_folds
    (sampler : FittedModel → List String → Nat → SamplerOut)
    (rng : RNG) (n_splits : Nat) (numReps : Option Int)
    (X y : List String) (model : Model) (res : Result)
    (splits : List (List Nat × List Nat)) (split : List Nat × List Nat)
    (X_train y_train X_eval : List String)
    (hrun : runWith sampler rng n_splits numReps X y model = Except.ok res)
    (hsplits : cvSplit (get_cross_validator n_splits true) rng X.length y
      = Except.ok splits)
    (hmem : split ∈ splits) (hne : split.2 ≠ [])
    (hXt : gatherE X split.1 = Except.ok X_train)
    (hyt : gatherE y split.1 = Except.ok y_train)
    (hXe : gatherE X split.2 = Except.ok X_eval) :
    (∀ row ∈ (model.fit X_train y_train).predict_proba X_eval,
      row.length = (model.fit X_train y_train).classes.length)
    ∧ ((model.fit X_train y_train).classes.length = (firstDedup y).length
        ∨ (model.fit X_train y_train).classes.length = 1) := by
  unfold runWith at hrun
  split at hrun
  · exact Except.noConfusion hrun
  · simp only [] at hrun
    split at hrun
    · rename_i e heq
      rw [hsplits] at heq
      exact Except.noConfusion heq
    · rename_i splitsL heq
      rw [hsplits] at heq
      injection heq with heq
      subst heq
      split at hrun
      · exact Except.noConfusion hrun
      · rename_i st hfold
        obtain ⟨s, s', hs⟩ := foldE_ok_of_mem hfold split hmem
        exact foldStep_columns hs hne hXt hyt hXe

/-- Witness for the amended C2: the one-class-encoder model on a completed
single-fold run; every matrix row has the fold-local width one and the
right disjunct (`= 1`) holds. -/
theorem c2_columns_constraint_witness :
    (∀ row ∈ (oneColModel.fit ["a", "b"] ["p", "q"]).predict_proba ["a", "b"],
      row.length = (oneColModel.fit ["a", "b"] ["p", "q"]).classes.length)
    ∧ ((oneColModel.fit ["a", "b"] ["p", "q"]).classes.length
        = (firstDedup ["p", "q"]).length
        ∨ (oneColModel.fit ["a", "b"] ["p", "q"]).classes.length = 1) :=
  c2_columns_constraint_on_completed_folds
    obtain_repeated_probabilities_flat idRNG 1 (some 50)
    ["a", "b"] ["p", "q"] oneColModel
    (Result.mk [some "p", some "p"] [some [1, 1], some [1, 1]] none
      (some ["p"]))
    [(List.range 2, List.range 2)] (List.range 2, List.range 2)
    ["a", "b"] ["p", "q"] ["a", "b"]
    (by decide) (by decide) (by decide) (by decide) (by decide) (by decide)
    (by decide)

section WriteLemmas

theorem writePairs_cons {α : Type} (arr : List α) (p : Nat × α)
    (ps : List (Nat × α)) :
    writePairs arr (p :: ps) = writePairs (writeAt arr p.1 p.2) ps := rfl

theorem writePairs_frame {α : Type} (arr : List α) (ps : List (Nat × α))
    (j : Nat) (hj : j ∉ ps.map Prod.fst) :
    (writePairs arr ps)[j]? = arr[j]? := by
  induction ps generalizing arr with
  | nil => rfl
  | cons p rest ih =>
    simp only [List.map_cons, List.mem_cons, not_or] at hj
    rw [writePairs_cons, ih _ hj.2]
    exact writeAt_get_other _ _ _ _ (fun h => hj.1 h.symm)

theorem writePairs_get {α : Type} (arr : List α) (ps : List (Nat × α))
    (j : Nat) (v : α) (hnodup : (ps.map Prod.fst).Nodup) (hmem : (j, v) ∈ ps)
    (hj : j < arr.length) :
    (writePairs arr ps)[j]? = some v := by
  induction ps generalizing arr with
  | nil => cases hmem
  | cons p rest ih =>
    rw [writePairs_cons]
    simp only [List.map_cons, List.nodup_cons] at hnodup
    rcases List.mem_cons.mp hmem with heq | hmem'
    · subst heq
      rw [writePairs_frame _ _ _ hnodup.1]
      exact writeAt_get_self _ _ _ hj
    · exact ih _ hnodup.2 hmem' (by rw [writeAt_length]; exact hj)

theorem writePairs_writes {α : Type} (arr : List α) (ps : List (Nat × α))
    (j : Nat) (hmem : j ∈ ps.map Prod.fst) (hj : j < arr.length) :
    ∃ v, (writePairs arr ps)[j]? = some v ∧ (j, v) ∈ ps := by
  induction ps generalizing arr with
  | nil => cases hmem
  | cons p rest ih =>
    rw [writePairs_cons]
    by_cases hrest : j ∈ rest.map Prod.fst
    · obtain ⟨v, hv, hvm⟩ := ih (writeAt arr p.1 p.2) hrest
        (by rw [writeAt_length]; exact hj)
      exact ⟨v, hv, List.mem_cons_of_mem _ hvm⟩
    · simp only [List.map_cons, List.mem_cons] at hmem
      rcases hmem with heq | hmem'
      · refine ⟨p.2, ?_, ?_⟩
        · rw [writePairs_frame _ _ _ hrest, heq]
          exact writeAt_get_self _ _ _ (heq ▸ hj)
        · rw [show (j, p.2) = p from by rw [heq]]
          exact List.mem_cons_self _ _
      · exact absurd hmem' hrest

theorem writePairs_some_preserve {α : Type} (arr : List (Option α))
    (ps : List (Nat × Option α)) (j : Nat) (v0 : α)
    (hvals : ∀ p ∈ ps, ∃ v, p.2 = some v)
    (harr : arr[j]? = some (some v0)) :
    ∃ v, (writePairs arr ps)[j]? = some (some v) := by
  by_cases hk : j ∈ ps.map Prod.fst
  · have hj : j < arr.length := by
      by_contra hge
      rw [List.getElem?_eq_none (Nat.le_of_not_lt hge)] at harr
      exact Option.noConfusion harr
    obtain ⟨w, hw, hwm⟩ := writePairs_writes arr ps j hk hj
    obtain ⟨v, hv⟩ := hvals _ hwm
    exact ⟨v, by rw [hw, show w = some v from hv]⟩
  · exact ⟨v0, by rw [writePairs_frame _ _ _ hk]; exact harr⟩

theorem scatterRows_length {α : Type} {arr : List (Option α)} {idxs : List Nat}
    {vals : List α} {out : List (Option α)}
    (h : scatterRows arr idxs vals = some out) :
    out.length = arr.length := by
  unfold scatterRows at h
  split at h
  · exact Option.noConfusion h
  · split at h
    · injection h with h
      rw [← h, writePairs_length]
    · split at h
      · injection h with h
        rw [← h, writePairs_length]
      · exact Option.noConfusion h

theorem scatterRows_in_bounds {α : Type} {arr : List (Option α)}
    {idxs : List Nat} {vals : List α} {out : List (Option α)}
    (h : scatterRows arr idxs vals = some out) :
    ∀ j ∈ idxs, j < arr.length := by
  unfold scatterRows at h
  split at h
  · exact Option.noConfusion h
  · rename_i hany
    intro j hjmem
    by_contra hge
    apply hany
    rw [List.any_eq_true]
    exact ⟨j, hjmem, decide_eq_true (Nat.le_of_not_lt hge)⟩

theorem scatterRows_writes {α : Type} {arr : List (Option α)}
    {idxs : List Nat} {vals : List α} {out : List (Option α)}
    (h : scatterRows arr idxs vals = some out) :
    ∀ j ∈ idxs, ∃ v, out[j]? = some (some v) := by
  intro j hjmem
  have hj : j < arr.length := scatterRows_in_bounds h j hjmem
  unfold scatterRows at h
  split at h
  · exact Option.noConfusion h
  · split at h
    · rename_i hlen
      injection h with h
      have hkeys : (idxs.zip (vals.map some)).map Prod.fst = idxs :=
        List.map_fst_zip _ _ (by rw [List.length_map, hlen])
      obtain ⟨w, hw, hwm⟩ := writePairs_writes arr _ j (by rw [hkeys]; exact hjmem) hj
      have := (List.of_mem_zip hwm).2
      obtain ⟨v, _, hv⟩ := List.mem_map.mp this
      exact ⟨v, by rw [← h, hw, ← hv]⟩
    · split at h
      · rename_i hlenne v heqv
        injection h with h
        have hkeys : (idxs.map (fun i => (i, some v))).map Prod.fst = idxs := by
          rw [List.map_map,
            show (Prod.fst ∘ fun i : Nat => (i, some v)) = id from rfl,
            List.map_id]
        obtain ⟨w, hw, hwm⟩ :=
          writePairs_writes arr _ j (by rw [hkeys]; exact hjmem) hj
        obtain ⟨i, _, hiv⟩ := List.mem_map.mp hwm
        injection hiv with hiv1 hiv2
        refine ⟨v, ?_⟩
        rw [← h, hw, ← hiv2]
      · exact Option.noConfusion h

end WriteLemmas

section PartitionLemmas

theorem countP_eq_zero_of_sum_zero {L : List (List Nat)} {j : Nat}
    (hsum : (L.map (fun c => c.count j)).sum = 0) :
    L.countP (fun c => decide (j ∈ c)) = 0 := by
  rw [List.countP_eq_zero]
  intro c hc
  have hc0 : c.count j = 0 :=
    List.sum_eq_zero_iff.mp hsum _ (List.mem_map_of_mem _ hc)
  rw [List.count_eq_zero] at hc0
  simp [hc0]

theorem countP_eq_one_of_sum_one {L : List (List Nat)} {j : Nat}
    (hsum : (L.map (fun c => c.count j)).sum = 1) :
    L.countP (fun c => decide (j ∈ c)) = 1 := by
  induction L with
  | nil => simp at hsum
  | cons c L' ih =>
    rw [List.map_cons, List.sum_cons] at hsum
    rw [List.countP_cons]
    by_cases hc : j ∈ c
    · have hcpos : 0 < c.count j := List.count_pos_iff.mpr hc
      have hc1 : (L'.map (fun c => c.count j)).sum = 0 := by omega
      rw [countP_eq_zero_of_sum_zero hc1]
      simp [hc]
    · have hc0 : c.count j = 0 := List.count_eq_zero.mpr hc
      rw [hc0, Nat.zero_add] at hsum
      rw [ih hsum]
      simp [hc]

theorem chunksOf_cons (s : Nat) (ss : List Nat) (l : List α) :
    chunksOf (s :: ss) l = l.take s :: chunksOf ss (l.drop s) := rfl

theorem chunksOf_flatten (sizes : List Nat) (l : List α) :
    (chunksOf sizes l).flatten = l.take sizes.sum := by
  induction sizes generalizing l with
  | nil => simp [chunksOf]
  | cons s ss ih =>
    rw [chunksOf_cons, List.flatten_cons, ih, List.sum_cons, List.take_add]

theorem range_map_sum_ite (m q r : Nat) :
    ((List.range m).map (fun i => q + if i < r then 1 else 0)).sum
      = m * q + min m r := by
  induction m with
  | zero => simp
  | succ m ih =>
    rw [List.range_succ, List.map_append, List.sum_append, ih]
    simp only [List.map_cons, List.map_nil, List.sum_cons, List.sum_nil]
    rw [Nat.succ_mul]
    by_cases h : m < r
    · rw [if_pos h]
      have h1 : min m r = m := Nat.min_eq_left (Nat.le_of_lt h)
      have h2 : min (m + 1) r = m + 1 := Nat.min_eq_left h
      omega
    · rw [if_neg h]
      have h1 : min m r = r := Nat.min_eq_right (Nat.le_of_not_lt h)
      have h2 : min (m + 1) r = r := Nat.min_eq_right (by omega)
      omega

theorem kfoldSizes_sum (k n : Nat) (hk : 0 < k) : (kfoldSizes k n).sum = n := by
  unfold kfoldSizes
  rw [range_map_sum_ite]
  have hr : n % k < k := Nat.mod_lt _ hk
  rw [Nat.min_eq_right (Nat.le_of_lt hr)]
  exact Nat.div_add_mod n k

/-- Each index `j < n` lands in the eval set of exactly one `KFold` fold. -/
theorem kfold_eval_countP (k n : Nat) (hk : 0 < k) (rng : RNG)
    (hlaw : (rng.permOf n).Perm (List.range n)) (j : Nat) (hj : j < n) :
    (kfoldSplits k n rng).countP (fun p => decide (j ∈ p.2)) = 1 := by
  unfold kfoldSplits kfoldTestChunks
  rw [List.countP_map]
  have hpq : ∀ chunk ∈ chunksOf (kfoldSizes k n) (rng.permOf n),
      ((fun p : List Nat × List Nat => decide (j ∈ p.2)) ∘ fun chunk =>
        ((List.range n).filter (fun j => !(chunk.contains j)),
         (List.range n).filter (fun j => chunk.contains j))) chunk = true ↔
      (fun chunk : List Nat => decide (j ∈ chunk)) chunk = true := by
    intro chunk _
    simp only [Function.comp]
    constructor
    · intro h
      have := of_decide_eq_true h
      rw [List.mem_filter] at this
      exact decide_eq_true (List.elem_iff.mp (by exact this.2))
    · intro h
      apply decide_eq_true
      rw [List.mem_filter]
      exact ⟨List.mem_range.mpr hj, List.elem_iff.mpr (of_decide_eq_true h)⟩
  rw [List.countP_congr hpq]
  · apply countP_eq_one_of_sum_one
    have : ((chunksOf (kfoldSizes k n) (rng.permOf n)).map
        (fun c => c.count j)).sum
        = ((chunksOf (kfoldSizes k n) (rng.permOf n)).flatten).count j := by
      rw [List.count_flatten]
    rw [this, chunksOf_flatten, kfoldSizes_sum k n hk]
    have hlen : (rng.permOf n).length = n :=
      hlaw.length_eq.trans (List.length_range n)
    rw [List.take_of_length_le (Nat.le_of_eq hlen), hlaw.count_eq]
    exact List.count_eq_one_of_mem (List.nodup_range n) (List.mem_range.mpr hj)

end PartitionLemmas

section StratifiedLemmas

theorem mem_firstDedup {α : Type} [DecidableEq α] (a : α) :
    ∀ (l : List α), a ∈ firstDedup l ↔ a ∈ l := by
  intro l
  induction l with
  | nil => rfl
  | cons b l ih =>
    unfold firstDedup
    by_cases hab : a = b
    · subst hab
      simp
    · simp only [List.mem_cons, List.mem_filter, ih]
      constructor
      · rintro (h | ⟨h, _⟩)
        · exact Or.inl h
        · exact Or.inr h
      · rintro (h | h)
        · exact Or.inl h
        · exact Or.inr ⟨h, by simp [hab]⟩

theorem mem_zip_of_mem_left {α β : Type} {a : α} :
    ∀ {l1 : List α} {l2 : List β}, a ∈ l1 → l1.length = l2.length →
      ∃ b ∈ l2, (a, b) ∈ l1.zip l2 := by
  intro l1
  induction l1 with
  | nil => intro l2 h; cases h
  | cons x xs ih =>
    intro l2 hmem hlen
    cases l2 with
    | nil => cases hlen
    | cons b bs =>
      rcases List.mem_cons.mp hmem with rfl | hmem'
      · exact ⟨b, List.mem_cons_self _ _, List.mem_cons_self _ _⟩
      · obtain ⟨b', hb', hab'⟩ := ih hmem' (by injection hlen)
        exact ⟨b', List.mem_cons_of_mem _ hb', List.mem_cons_of_mem _ hab'⟩

theorem assignClass_length {tf tf' : List (Option Nat)} {yEnc : List Nat}
    {c : Nat} {vals : List Nat}
    (h : assignClass tf yEnc c vals = some tf') : tf'.length = tf.length := by
  unfold assignClass at h
  simp only [] at h
  split at h
  · injection h with h
    rw [← h, writePairs_length]
  · exact Option.noConfusion h

theorem assignClass_frame {tf tf' : List (Option Nat)} {yEnc : List Nat}
    {c : Nat} {vals : List Nat}
    (h : assignClass tf yEnc c vals = some tf') (j : Nat)
    (hjc : yEnc.getD j 0 ≠ c) : tf'[j]? = tf[j]? := by
  unfold assignClass at h
  simp only [] at h
  split at h
  · rename_i hlen
    injection h with h
    rw [← h]
    apply writePairs_frame
    rw [List.map_fst_zip _ _
      (by rw [List.length_map]; exact Nat.le_of_eq hlen.symm)]
    intro hjmem
    rw [List.mem_filter] at hjmem
    exact hjc (beq_iff_eq.mp hjmem.2)
  · exact Option.noConfusion h

theorem assignClass_writes {tf tf' : List (Option Nat)} {yEnc : List Nat}
    {c : Nat} {vals : List Nat}
    (h : assignClass tf yEnc c vals = some tf') (j : Nat)
    (hjy : j < yEnc.length) (hjc : yEnc.getD j 0 = c) (hjt : j < tf.length) :
    ∃ v ∈ vals, tf'[j]? = some (some v) := by
  unfold assignClass at h
  simp only [] at h
  split at h
  · rename_i hlen
    injection h with h
    have hjpos : j ∈ (List.range yEnc.length).filter
        (fun i => yEnc.getD i 0 == c) := by
      rw [List.mem_filter]
      exact ⟨List.mem_range.mpr hjy, beq_iff_eq.mpr hjc⟩
    obtain ⟨b, hb, hab⟩ := @mem_zip_of_mem_left Nat (Option Nat) j _
      (vals.map some) hjpos (by rw [List.length_map]; exact hlen.symm)
    obtain ⟨v, hv, hbv⟩ := List.mem_map.mp hb
    refine ⟨v, hv, ?_⟩
    rw [← h]
    rw [← hbv] at hab
    apply writePairs_get _ _ _ _ ?_ hab hjt
    rw [List.map_fst_zip _ _
      (by rw [List.length_map]; exact Nat.le_of_eq hlen.symm)]
    exact (List.nodup_range _).filter _
  · exact Option.noConfusion h

theorem foldsForClass_lt {k : Nat} {yOrder : List Nat} {c v : Nat}
    (h : v ∈ foldsForClass k yOrder c) : v < k := by
  unfold foldsForClass at h
  rw [List.mem_flatten] at h
  obtain ⟨l, hl, hv⟩ := h
  obtain ⟨i, hi, rfl⟩ := List.mem_map.mp hl
  rw [List.eq_of_mem_replicate hv]
  exact List.mem_range.mp hi

end StratifiedLemmas

section StratifiedCoverage

theorem assignFold_frame {yEnc : List Nat} {sh : Nat → List Nat} (j : Nat) :
    ∀ (cs : List Nat) (tf0 tf : List (Option Nat)),
      List.foldlM (fun tf c => assignClass tf yEnc c (sh c)) tf0 cs = some tf →
      (∀ c' ∈ cs, yEnc.getD j 0 ≠ c') → tf[j]? = tf0[j]? := by
  intro cs
  induction cs with
  | nil =>
    intro tf0 tf h _
    injection h with h
    rw [h]
  | cons c cs' ih =>
    intro tf0 tf h hfr
    rw [List.foldlM_cons] at h
    cases ha : assignClass tf0 yEnc c (sh c) with
    | none => rw [ha] at h; exact Option.noConfusion h
    | some tf1 =>
      rw [ha] at h
      simp only [Option.bind_eq_bind, Option.some_bind] at h
      rw [ih tf1 tf h (fun c' hc' => hfr c' (List.mem_cons_of_mem _ hc'))]
      exact assignClass_frame ha j (hfr c (List.mem_cons_self _ _))

theorem assignFold_covers {yEnc : List Nat} {sh : Nat → List Nat} (j : Nat) :
    ∀ (cs : List Nat) (tf0 tf : List (Option Nat)),
      List.foldlM (fun tf c => assignClass tf yEnc c (sh c)) tf0 cs = some tf →
      cs.Nodup → j < yEnc.length → j < tf0.length → yEnc.getD j 0 ∈ cs →
      ∃ v ∈ sh (yEnc.getD j 0), tf[j]? = some (some v) := by
  intro cs
  induction cs with
  | nil =>
    intro tf0 tf _ _ _ _ hmem
    cases hmem
  | cons c cs' ih =>
    intro tf0 tf h hnodup hjy hjt hmem
    rw [List.foldlM_cons] at h
    cases ha : assignClass tf0 yEnc c (sh c) with
    | none => rw [ha] at h; exact Option.noConfusion h
    | some tf1 =>
      rw [ha] at h
      simp only [Option.bind_eq_bind, Option.some_bind] at h
      rw [List.nodup_cons] at hnodup
      by_cases hc : yEnc.getD j 0 = c
      · obtain ⟨v, hv, htf1⟩ := assignClass_writes ha j hjy hc hjt
        refine ⟨v, by rw [hc]; exact hv, ?_⟩
        rw [assignFold_frame j cs' tf1 tf h
          (fun c' hc' => by rw [hc]; exact fun he => hnodup.1 (he ▸ hc'))]
        exact htf1
      · rcases List.mem_cons.mp hmem with heq | hmem'
        · exact absurd heq hc
        · exact ih tf1 tf h hnodup.2 hjy
            (by rw [assignClass_length ha]; exact hjt) hmem'

theorem stratifiedTestFolds_covers {β : Type}
    [DecidableEq β] [Inhabited β] {k : Nat} {y : List β} {rng : RNG}
    (hsh : ∀ c l, (rng.shuffleList c l).Perm l)
    {tf : List (Option Nat)} (h : stratifiedTestFolds k y rng = some tf)
    (j : Nat) (hj : j < y.length) :
    ∃ v, v < k ∧ tf[j]? = some (some v) := by
  unfold stratifiedTestFolds at h
  simp only [] at h
  have hjy : j < (encodeFirst y).length := by
    rw [encodeFirst, List.length_map]
    exact hj
  have hgetD : (encodeFirst y).getD j 0
      = (firstDedup y).indexOf (y.getD j default) := by
    rw [encodeFirst, List.getD_eq_getElem?_getD, List.getElem?_map,
      List.getElem?_eq_getElem hj]
    simp [List.getD_eq_getElem?_getD, List.getElem?_eq_getElem hj]
  have hcls : (encodeFirst y).getD j 0 ∈ List.range (firstDedup y).length := by
    rw [hgetD, List.mem_range]
    apply List.indexOf_lt_length.mpr
    rw [mem_firstDedup]
    rw [List.getD_eq_getElem?_getD, List.getElem?_eq_getElem hj]
    exact List.getElem_mem hj
  obtain ⟨v, hv, htf⟩ := assignFold_covers j _ _ tf h
    (List.nodup_range _) hjy (by rw [List.length_replicate]; exact hj) hcls
  refine ⟨v, ?_, htf⟩
  exact foldsForClass_lt (((hsh _ _).mem_iff).mp hv)

end StratifiedCoverage

theorem countP_range_eq_one {k v : Nat} (hv : v < k) :
    (List.range k).countP (fun f => v == f) = 1 := by
  induction k with
  | zero => cases hv
  | succ k ih =>
    rw [List.range_succ, List.countP_append]
    by_cases h : v < k
    · rw [ih h]
      have hne : (v == k) = false := by
        rw [beq_eq_false_iff_ne]
        omega
      simp [List.countP_cons, hne]
    · have hvk : v = k := by omega
      subst hvk
      rw [List.countP_eq_zero.mpr ?_]
      · simp [List.countP_cons]
      · intro x hx
        rw [List.mem_range] at hx
        rw [beq_iff_eq]
        omega

theorem splitsFromTestFolds_countP {k n : Nat} {tf : List (Option Nat)}
    {j v : Nat} (hj : j < n) (hv : v < k) (htf : tf[j]? = some (some v)) :
    (splitsFromTestFolds k n tf).countP (fun p => decide (j ∈ p.2)) = 1 := by
  unfold splitsFromTestFolds
  rw [List.countP_map]
  have hgetD : tf.getD j none = some v := by
    rw [List.getD_eq_getElem?_getD, htf]
    rfl
  have hpq : ∀ f ∈ List.range k,
      ((fun p : List Nat × List Nat => decide (j ∈ p.2)) ∘ fun f =>
        ((List.range n).filter (fun i => !(tf.getD i none == some f)),
         (List.range n).filter (fun i => tf.getD i none == some f))) f = true ↔
      (fun f : Nat => v == f) f = true := by
    intro f _
    simp only [Function.comp]
    constructor
    · intro h
      have := of_decide_eq_true h
      rw [List.mem_filter] at this
      have h2 := this.2
      rw [hgetD] at h2
      rw [beq_iff_eq] at h2 ⊢
      injection h2
    · intro h
      rw [beq_iff_eq] at h
      subst h
      apply decide_eq_true
      rw [List.mem_filter]
      refine ⟨List.mem_range.mpr hj, ?_⟩
      rw [hgetD]
      exact beq_iff_eq.mpr rfl
  rw [List.countP_congr hpq]
  exact countP_range_eq_one hv

theorem cvSplit_single_eq {β : Type} [DecidableEq β] (rng : RNG) (n : Nat)
    (y : List β) :
    cvSplit Validator.singleSplit rng n y
      = Except.ok [(List.range n, List.range n)] := rfl

theorem cvSplit_kfold_eq {β : Type} [DecidableEq β] (k n : Nat) (rng : RNG)
    (y : List β) :
    cvSplit (Validator.kfold k) rng n y =
      if y.length ≠ n then
        Except.error "Found input variables with inconsistent numbers of samples"
      else if n < k then
        Except.error "Cannot have number of splits greater than the number of samples"
      else Except.ok (kfoldSplits k n rng) := rfl

theorem cvSplit_strat_eq {β : Type} [DecidableEq β] (k n : Nat) (rng : RNG)
    (y : List β) :
    cvSplit (Validator.stratifiedKFold k) rng n y =
      if y.length ≠ n then
        Except.error "Found input variables with inconsistent numbers of samples"
      else if n < k then
        Except.error "Cannot have number of splits greater than the number of samples"
      else if (firstDedup y).all (fun lbl => y.count lbl < k) then
        Except.error "n_splits cannot be greater than the number of members in each class"
      else
        match stratifiedTestFolds k y rng with
        | some tf => Except.ok (splitsFromTestFolds k n tf)
        | none => Except.error "could not broadcast fold assignment" := rfl

/-- For every validator `get_cross_validator` can return: whenever `split`
succeeds, each index below `n` is in exactly one eval set. -/
theorem cvSplit_partition {β : Type} [DecidableEq β] [Inhabited β]
    (k : Nat) (strat : Bool) (n : Nat) (y : List β) (rng : RNG)
    (hlaw : rng.lawful) (pairs : List (List Nat × List Nat))
    (hok : cvSplit (get_cross_validator k strat) rng n y = Except.ok pairs)
    (j : Nat) (hj : j < n) :
    pairs.countP (fun p => decide (j ∈ p.2)) = 1 := by
  unfold get_cross_validator at hok
  by_cases hk1 : k > 1
  · rw [if_pos hk1] at hok
    cases strat with
    | false =>
      rw [if_neg (by simp)] at hok
      rw [cvSplit_kfold_eq] at hok
      split at hok
      · exact Except.noConfusion hok
      · split at hok
        · exact Except.noConfusion hok
        · injection hok with hok
          subst hok
          exact kfold_eval_countP k n (by omega) rng (hlaw.1 n) j hj
    | true =>
      rw [if_pos rfl] at hok
      rw [cvSplit_strat_eq] at hok
      split at hok
      · exact Except.noConfusion hok
      · rename_i hlceq
        split at hok
        · exact Except.noConfusion hok
        · split at hok
          · exact Except.noConfusion hok
          · split at hok
            · rename_i tf heq
              injection hok with hok
              subst hok
              have hylen : y.length = n := not_ne_iff.mp hlceq
              obtain ⟨v, hv, htf⟩ := stratifiedTestFolds_covers hlaw.2 heq j
                (by rw [hylen]; exact hj)
              exact splitsFromTestFolds_countP hj hv htf
            · exact Except.noConfusion hok
  · rw [if_neg hk1] at hok
    rw [cvSplit_single_eq] at hok
    injection hok with hok
    subst hok
    simp [List.countP_cons, List.mem_range, hj]

section NoGaps

theorem scatterRows_preserve {α : Type} {arr : List (Option α)}
    {idxs : List Nat} {vals : List α} {out : List (Option α)}
    (h : scatterRows arr idxs vals = some out) (j : Nat) (w : α)
    (harr : arr[j]? = some (some w)) : ∃ w', out[j]? = some (some w') := by
  unfold scatterRows at h
  split at h
  · exact Option.noConfusion h
  · split at h
    · injection h with h
      rw [← h]
      apply writePairs_some_preserve _ _ _ w ?_ harr
      intro p hp
      have := (List.of_mem_zip hp).2
      obtain ⟨v, _, hv⟩ := List.mem_map.mp this
      exact ⟨v, hv.symm⟩
    · split at h
      · injection h with h
        rw [← h]
        apply writePairs_some_preserve _ _ _ w ?_ harr
        intro p hp
        obtain ⟨i, _, hiv⟩ := List.mem_map.mp hp
        exact ⟨_, congrArg Prod.snd hiv.symm⟩
      · exact Option.noConfusion h

theorem foldStepBody_writes_pred {model : Model} {nl : Nat} {nr : Option Int}
    {sampler : FittedModel → List String → Nat → SamplerOut}
    {st st' : RunState} {ev : List Nat} {Xt Xe yt ye : List String}
    (h : foldStepBody model nl nr sampler st ev Xt Xe yt ye = Except.ok st') :
    ∀ j ∈ ev, ∃ w, st'.preds[j]? = some (some w) := by
  unfold foldStepBody at h
  simp only [] at h
  repeat' split at h
  all_goals try exact Except.noConfusion h
  injection h with h
  subst h
  rename_i g1 g2 g3 g4 g5 st1E st1 heq2 xa preds1 heqp xb probs1 heqq
  exact scatterRows_writes heqp

theorem foldStepBody_preds_mono {model : Model} {nl : Nat} {nr : Option Int}
    {sampler : FittedModel → List String → Nat → SamplerOut}
    {st st' : RunState} {ev : List Nat} {Xt Xe yt ye : List String}
    (h : foldStepBody model nl nr sampler st ev Xt Xe yt ye = Except.ok st')
    (j : Nat) (w : String) (hst : st.preds[j]? = some (some w)) :
    ∃ w', st'.preds[j]? = some (some w') := by
  unfold foldStepBody at h
  simp only [] at h
  repeat' split at h
  all_goals try exact Except.noConfusion h
  injection h with h
  subst h
  rename_i g1 g2 g3 g4 g5 st1E st1 heq2 xa preds1 heqp xb probs1 heqq
  have hst1 : st1.preds = st.preds := by
    split at heq2
    · split at heq2
      · split at heq2
        · injection heq2 with heq2
          subst heq2
          rfl
        · exact Except.noConfusion heq2
      · exact Except.noConfusion heq2
    · injection heq2 with heq2
      subst heq2
      rfl
  rw [hst1] at heqp
  exact scatterRows_preserve heqp j w hst

theorem foldStep_writes_pred {model : Model} {X y : List String} {nl : Nat}
    {nr : Option Int} {sampler : FittedModel → List String → Nat → SamplerOut}
    {st st' : RunState} {split : List Nat × List Nat}
    (h : foldStep model X y nl nr sampler st split = Except.ok st') :
    ∀ j ∈ split.2, ∃ w, st'.preds[j]? = some (some w) := by
  unfold foldStep at h
  repeat' split at h
  all_goals try exact Except.noConfusion h
  exact foldStepBody_writes_pred h

theorem foldStep_preds_mono {model : Model} {X y : List String} {nl : Nat}
    {nr : Option Int} {sampler : FittedModel → List String → Nat → SamplerOut}
    {st st' : RunState} {split : List Nat × List Nat}
    (h : foldStep model X y nl nr sampler st split = Except.ok st')
    (j : Nat) (w : String) (hst : st.preds[j]? = some (some w)) :
    ∃ w', st'.preds[j]? = some (some w') := by
  unfold foldStep at h
  repeat' split at h
  all_goals try exact Except.noConfusion h
  exact foldStepBody_preds_mono h j w hst

theorem foldE_writes_pred {model : Model} {X y : List String} {nl : Nat}
    {nr : Option Int} {sampler : FittedModel → List String → Nat → SamplerOut} :
    ∀ {splits : List (List Nat × List Nat)} {st0 st : RunState},
      foldE (foldStep model X y nl nr sampler) st0 splits = Except.ok st →
      ∀ sp ∈ splits, ∀ j ∈ sp.2, ∃ w, st.preds[j]? = some (some w) := by
  intro splits
  induction splits with
  | nil => intro st0 st _ sp hsp; cases hsp
  | cons sp' rest ih =>
    intro st0 st h sp hsp j hj
    rw [foldE_cons] at h
    cases hfa : foldStep model X y nl nr sampler st0 sp' with
    | error e => rw [hfa] at h; exact Except.noConfusion h
    | ok st1 =>
      rw [hfa] at h
      rcases List.mem_cons.mp hsp with rfl | hsp'
      · obtain ⟨w, hw⟩ := foldStep_writes_pred hfa j hj
        exact @foldE_invariant _ _ _ _
          (fun s => ∃ w', s.preds[j]? = some (some w'))
          (fun s x s' hs ⟨w', hP⟩ => foldStep_preds_mono hs j w' hP)
          _ _ _ h ⟨w, hw⟩
      · exact ih h sp hsp' j hj

end NoGaps

/-- C3 (amended): whenever the cross validator returned by
`get_cross_validator` successfully produces its fold sequence, every index
in `[0, n)` appears in the eval set of exactly one pair; consequently a
completed run writes every `Result` slot (no gaps, and the unique owning
fold means no duplicate writes). -/
theorem c3_eval_sets_partition_indices
    (k : Nat) (hk : 1 ≤ k) (strat : Bool) (n : Nat) (y : List String)
    (rng : RNG) (hlaw : rng.lawful) (pairs : List (List Nat × List Nat))
    (hok : cvSplit (get_cross_validator k strat) rng n y = Except.ok pairs) :
    (∀ j < n, pairs.countP (fun p => decide (j ∈ p.2)) = 1)
    ∧ (∀ (sampler : FittedModel → List String → Nat → SamplerOut)
        (numReps : Option Int) (X : List String) (model : Model)
        (res : Result),
        strat = true → n = X.length →
        runWith sampler rng k numReps X y model = Except.ok res →
        ∀ j < n, ∃ w, res.predictions[j]? = some (some w)) := by
  constructor
  · intro j hj
    exact cvSplit_partition k strat n y rng hlaw pairs hok j hj
  · intro sampler numReps X model res hstrat hn hrun j hj
    subst hstrat
    subst hn
    unfold runWith at hrun
    split at hrun
    · exact Except.noConfusion hrun
    · simp only [] at hrun
      split at hrun
      · rename_i e heq
        rw [hok] at heq
        exact Except.noConfusion heq
      · rename_i splitsL heq
        rw [hok] at heq
        injection heq with heq
        subst heq
        split at hrun
        · exact Except.noConfusion hrun
        · injection hrun with hrun
          subst hrun
          rename_i st hfold
          simp only []
          have hcnt := cvSplit_partition k true X.length y rng hlaw pairs hok j hj
          have hpos : 0 < pairs.countP (fun p => decide (j ∈ p.2)) := by omega
          obtain ⟨sp, hsp, hjp⟩ := List.countP_pos_iff.mp hpos
          exact foldE_writes_pred hfold sp hsp j (of_decide_eq_true hjp)

/-- C3 (counterexample): with fold count 2 and a single instance, sklearn
raises (`n_splits` greater than the number of samples), so no fold
sequence exists in which index 0 could appear. -/
theorem c3_split_fails_when_folds_exceed_samples :
    ¬ ∃ pairs, cvSplit (get_cross_validator 2 true) idRNG 1 ["a"]
        = Except.ok pairs
      ∧ ∀ j < 1, pairs.countP (fun p => decide (j ∈ p.2)) = 1 := by
  rintro ⟨pairs, hok, _⟩
  rw [show cvSplit (get_cross_validator 2 true) idRNG 1 ["a"]
      = Except.error "Cannot have number of splits greater than the number of samples"
    from by decide] at hok
  exact Except.noConfusion hok

/-- Witness for the amended C3: the two-fold stratified split of four
instances; index 1 lies in exactly one eval set. -/
theorem c3_eval_sets_partition_witness :
    ([([2, 3], [0, 1]), ([0, 1], [2, 3])] : List (List Nat × List Nat)).countP
      (fun p => decide (1 ∈ p.2)) = 1 :=
  (c3_eval_sets_partition_indices 2 (by decide) true 4 ["p", "q", "p", "q"]
    idRNG ⟨fun n => List.Perm.refl _, fun c l => List.Perm.refl _⟩
    [([2, 3], [0, 1]), ([0, 1], [2, 3])] (by decide)).1 1 (by decide)

section RaggedLemmas

theorem cvSplit_nonstrat_label_independent {β : Type} [DecidableEq β]
    (k n : Nat) (rng : RNG) (y y' : List β) (hlen : y.length = y'.length) :
    cvSplit (get_cross_validator k false) rng n y
      = cvSplit (get_cross_validator k false) rng n y' := by
  unfold get_cross_validator
  by_cases hk1 : k > 1
  · rw [if_pos hk1, if_neg (by simp), cvSplit_kfold_eq, cvSplit_kfold_eq, hlen]
  · rw [if_neg hk1]
    rfl

theorem offsetOf_zero (sizes : List Nat) : offsetOf sizes 0 = 0 := rfl

theorem offsetOf_cons_succ (s : Nat) (ss : List Nat) (g : Nat) :
    offsetOf (s :: ss) (g + 1) = s + offsetOf ss g := by
  unfold offsetOf
  rw [List.take_succ_cons, List.sum_cons]

theorem range'_split (start m rest : Nat) :
    List.range' start (m + rest) = List.range' start m ++ List.range' (start + m) rest := by
  have := List.range'_append start m rest 1
  rw [Nat.one_mul] at this
  rw [Nat.add_comm m rest, ← this]

/-- The pre-computed `grouped_indices`: group `g` of
`ak.unflatten(np.arange(total), sizes)` is the contiguous index block
starting at the sum of the earlier sizes. -/
theorem chunksOf_range' (sizes : List Nat) :
    ∀ (g start rest : Nat), g < sizes.length →
      (chunksOf sizes (List.range' start (sizes.sum + rest)))[g]?
        = some (List.range' (start + offsetOf sizes g) (sizes.getD g 0)) := by
  induction sizes with
  | nil =>
    intro g start rest hg
    cases hg
  | cons s ss ih =>
    intro g start rest hg
    rw [List.sum_cons, Nat.add_assoc, range'_split, chunksOf_cons]
    rw [List.take_left' (by rw [List.length_range']),
      List.drop_left' (by rw [List.length_range'])]
    cases g with
    | zero =>
      simp [offsetOf_zero, List.getD]
    | succ g' =>
      rw [List.getElem?_cons_succ, offsetOf_cons_succ, ← Nat.add_assoc,
        List.getD_cons_succ]
      exact ih g' (start + s) rest (Nat.lt_of_succ_lt_succ hg)

theorem map_length_eq {α β : Type} :
    ∀ {A : List (List α)} {B : List (List β)}, A.length = B.length →
      (∀ m, m < A.length → (A.getD m []).length = (B.getD m []).length) →
      A.map List.length = B.map List.length := by
  intro A
  induction A with
  | nil =>
    intro B hlen _
    cases B with
    | nil => rfl
    | cons b bs => cases hlen
  | cons a as ih =>
    intro B hlen hpt
    cases B with
    | nil => cases hlen
    | cons b bs =>
      rw [List.map_cons, List.map_cons]
      have h0 := hpt 0 (by simp)
      simp only [List.getD_cons_zero] at h0
      rw [h0, ih (by injection hlen) ?_]
      intro m hm
      have := hpt (m + 1) (by simpa using Nat.succ_lt_succ hm)
      simpa [List.getD_cons_succ] using this

theorem zip_flatten {α β : Type} :
    ∀ {A : List (List α)} {B : List (List β)}, A.length = B.length →
      (∀ m, m < A.length → (A.getD m []).length = (B.getD m []).length) →
      A.flatten.zip B.flatten = (List.zipWith List.zip A B).flatten := by
  intro A
  induction A with
  | nil => intro B _ _; rfl
  | cons a as ih =>
    intro B hlen hpt
    cases B with
    | nil => cases hlen
    | cons b bs =>
      rw [List.flatten_cons, List.flatten_cons, List.zipWith_cons_cons,
        List.flatten_cons]
      have h0 : a.length = b.length := by
        have := hpt 0 (by simp)
        simpa [List.getD_cons_zero] using this
      rw [List.zip_append h0]
      congr 1
      apply ih (by injection hlen)
      intro m hm
      have := hpt (m + 1) (by simpa using Nat.succ_lt_succ hm)
      simpa [List.getD_cons_succ] using this

end RaggedLemmas

theorem getD_map_of_lt {α β : Type} (f : α → β) (l : List α) (m : Nat)
    (d : β) (d' : α) (hm : m < l.length) :
    (l.map f).getD m d = f (l.getD m d') := by
  rw [List.getD_eq_getElem?_getD, List.getElem?_map,
    List.getElem?_eq_getElem hm, List.getD_eq_getElem?_getD,
    List.getElem?_eq_getElem hm]
  rfl

theorem scatterRows_places {α : Type} (d : α) {arr out : List (Option α)}
    {E : List (List Nat)} {V : List (List α)}
    (h : scatterRows arr E.flatten V.flatten = some out)
    (hlenEV : E.length = V.length)
    (hlens : ∀ m, m < E.length →
      (E.getD m []).length = (V.getD m []).length)
    (hnodup : E.flatten.Nodup) :
    ∀ m, m < E.length → ∀ j, j < (E.getD m []).length →
      out[(E.getD m []).getD j 0]?
        = some (some ((V.getD m []).getD j d)) := by
  intro m hm j hj
  -- the written key and its membership in the score indices
  have hkeymem : (E.getD m []).getD j 0 ∈ E.flatten := by
    rw [List.mem_flatten]
    refine ⟨E.getD m [], ?_, ?_⟩
    · rw [List.getD_eq_getElem _ _ hm]
      exact List.getElem_mem hm
    · rw [List.getD_eq_getElem _ _ hj]
      exact List.getElem_mem hj
  have hbound := scatterRows_in_bounds h _ hkeymem
  -- lengths of the flattened value and index lists agree
  have hflatlen : V.flatten.length = E.flatten.length := by
    rw [List.length_flatten, List.length_flatten,
      map_length_eq hlenEV.symm (fun m' hm' => (hlens m' (by omega)).symm)]
  -- the scatter takes its equal-length branch
  unfold scatterRows at h
  split at h
  · exact Option.noConfusion h
  · injection h with h
    -- identify the written pairs groupwise
    have hmapsome : V.flatten.map some = (V.map (List.map some)).flatten := by
      rw [List.map_flatten]
    have hzip : E.flatten.zip (V.flatten.map some)
        = (List.zipWith List.zip E (V.map (List.map some))).flatten := by
      rw [hmapsome]
      apply zip_flatten
      · rw [List.length_map]
        exact hlenEV
      · intro m' hm'
        rw [getD_map_of_lt _ _ _ _ [] (by rw [← hlenEV]; exact hm'),
          List.length_map]
        exact hlens m' hm'
    -- the target pair is among the written pairs
    have hpairmem : ((E.getD m []).getD j 0,
        some ((V.getD m []).getD j d)) ∈ E.flatten.zip (V.flatten.map some) := by
      rw [hzip, List.mem_flatten]
      refine ⟨(E.getD m []).zip (List.map some (V.getD m [])), ?_, ?_⟩
      · have hmQ : m < (List.zipWith List.zip E (List.map (List.map some) V)).length := by
          rw [List.length_zipWith, List.length_map, ← hlenEV, Nat.min_self]
          exact hm
        have hmV : m < V.length := by
          rw [← hlenEV]
          exact hm
        have hel := List.getElem_mem hmQ
        rw [List.getElem_zipWith, List.getElem_map] at hel
        rw [List.getD_eq_getElem _ _ hm,
          show (V.getD m []) = V[m] from List.getD_eq_getElem _ _ hmV]
        exact hel
      · apply List.getElem?_mem
        rw [List.getElem?_zip_eq_some]
        constructor
        · rw [List.getElem?_eq_getElem hj, List.getD_eq_getElem _ _ hj]
        · have hjV : j < (V.getD m []).length := by rw [← hlens m hm]; exact hj
          rw [List.getElem?_map, List.getElem?_eq_getElem hjV,
            List.getD_eq_getElem _ _ hjV]
          rfl
    -- keys are exactly the score indices, which are nodup
    rw [← h]
    apply writePairs_get _ _ _ _ ?_ hpairmem hbound
    rw [List.map_fst_zip _ _ (by rw [List.length_map, hflatlen])]
    exact hnodup

theorem foldStepRaggedBody_places {model : TaggerModel} {nl : Nat}
    {nr : Option Int} {st st' : RunState} {ev : List Nat}
    {E : List (List Nat)} {Xt Xe yt ye : List (List String)}
    (h : foldStepRaggedBody model nl nr st ev E.flatten Xt Xe yt ye
      = Except.ok st')
    (hlenEP : E.length = ((model.fit Xt yt).predict Xe).length)
    (hlens : ∀ m, m < E.length →
      (E.getD m []).length = (((model.fit Xt yt).predict Xe).getD m []).length)
    (hnodup : E.flatten.Nodup) :
    ∀ m, m < E.length → ∀ j, j < (E.getD m []).length →
      st'.preds[(E.getD m []).getD j 0]?
        = some (some ((((model.fit Xt yt).predict Xe).getD m []).getD j "")) := by
  unfold foldStepRaggedBody at h
  simp only [] at h
  repeat' split at h
  all_goals try exact Except.noConfusion h
  injection h with h
  subst h
  rename_i g1 g2 g3 g4 g5 st1E st1 heq2 xa preds1 heqp xb probs1 heqq
  exact scatterRows_places "" heqp hlenEP hlens hnodup

theorem mapM_broadcastCols_id {w : Nat} {rows : List (List Rat)}
    (h : ∀ row ∈ rows, row.length = w) :
    rows.mapM (broadcastCols w) = some rows := by
  induction rows with
  | nil => rfl
  | cons r rs ih =>
    rw [List.mapM_cons]
    have hr : broadcastCols w r = some r := by
      unfold broadcastCols
      rw [if_pos (h r (List.mem_cons_self r rs))]
    rw [hr, ih (fun row hrow => h row (List.mem_cons_of_mem r hrow))]
    rfl

theorem foldStepRaggedBody_places_probs {model : TaggerModel} {nl : Nat}
    {nr : Option Int} {st st' : RunState} {ev : List Nat}
    {E : List (List Nat)} {Xt Xe yt ye : List (List String)}
    (h : foldStepRaggedBody model nl nr st ev E.flatten Xt Xe yt ye
      = Except.ok st')
    (hlenEQ : E.length = ((model.fit Xt yt).predict_proba Xe).length)
    (hlensQ : ∀ m, m < E.length →
      (E.getD m []).length
        = (((model.fit Xt yt).predict_proba Xe).getD m []).length)
    (hwidth : ∀ row ∈ ((model.fit Xt yt).predict_proba Xe).flatten,
      row.length = nl)
    (hnodup : E.flatten.Nodup) :
    ∀ m, m < E.length → ∀ j, j < (E.getD m []).length →
      st'.probs[(E.getD m []).getD j 0]?
        = some (some ((((model.fit Xt yt).predict_proba Xe).getD m []).getD j [])) := by
  unfold foldStepRaggedBody at h
  simp only [] at h
  repeat' split at h
  all_goals try exact Except.noConfusion h
  injection h with h
  subst h
  rename_i g1 g2 g3 g4 g5 st1E st1 heq2 xa preds1 heqp xb probs1 heqq
  unfold scatter2 at heqq
  simp only [Option.bind_eq_bind, Option.bind_eq_some] at heqq
  obtain ⟨rows, hrows, hsc⟩ := heqq
  rw [mapM_broadcastCols_id hwidth] at hrows
  injection hrows with hrows
  subst hrows
  exact scatterRows_places [] hsc hlenEQ hlensQ hnodup

theorem foldStepRagged_places {model : TaggerModel} {X y : List (List String)}
    {grouped : List (List Nat)} {nl : Nat} {nr : Option Int}
    {st st' : RunState} {split : List Nat × List Nat}
    {E : List (List Nat)} {Xt Xe yt ye : List (List String)}
    (hE : gatherE grouped split.2 = Except.ok E)
    (hXt : gatherE X split.1 = Except.ok Xt)
    (hXe : gatherE X split.2 = Except.ok Xe)
    (hyt : gatherE y split.1 = Except.ok yt)
    (hye : gatherE y split.2 = Except.ok ye)
    (h : foldStepRagged model X y grouped nl nr st split = Except.ok st')
    (hlenEP : E.length = ((model.fit Xt yt).predict Xe).length)
    (hlens : ∀ m, m < E.length →
      (E.getD m []).length = (((model.fit Xt yt).predict Xe).getD m []).length)
    (hnodup : E.flatten.Nodup) :
    ∀ m, m < E.length → ∀ j, j < (E.getD m []).length →
      st'.preds[(E.getD m []).getD j 0]?
        = some (some ((((model.fit Xt yt).predict Xe).getD m []).getD j "")) := by
  unfold foldStepRagged at h
  repeat' split at h
  all_goals try exact Except.noConfusion h
  rename_i evalGroups X_train X_eval y_train y_eval heq1 heq2 heq3 heq4 heq5
  rw [hE] at heq1
  rw [hXt] at heq2
  rw [hXe] at heq3
  rw [hyt] at heq4
  rw [hye] at heq5
  injection heq1 with heq1
  injection heq2 with heq2
  injection heq3 with heq3
  injection heq4 with heq4
  injection heq5 with heq5
  subst heq1 heq2 heq3 heq4 heq5
  exact foldStepRaggedBody_places h hlenEP hlens hnodup

theorem foldStepRagged_places_probs {model : TaggerModel} {X y : List (List String)}
    {grouped : List (List Nat)} {nl : Nat} {nr : Option Int}
    {st st' : RunState} {split : List Nat × List Nat}
    {E : List (List Nat)} {Xt Xe yt ye : List (List String)}
    (hE : gatherE grouped split.2 = Except.ok E)
    (hXt : gatherE X split.1 = Except.ok Xt)
    (hXe : gatherE X split.2 = Except.ok Xe)
    (hyt : gatherE y split.1 = Except.ok yt)
    (hye : gatherE y split.2 = Except.ok ye)
    (h : foldStepRagged model X y grouped nl nr st split = Except.ok st')
    (hlenEQ : E.length = ((model.fit Xt yt).predict_proba Xe).length)
    (hlensQ : ∀ m, m < E.length →
      (E.getD m []).length
        = (((model.fit Xt yt).predict_proba Xe).getD m []).length)
    (hwidth : ∀ row ∈ ((model.fit Xt yt).predict_proba Xe).flatten,
      row.length = nl)
    (hnodup : E.flatten.Nodup) :
    ∀ m, m < E.length → ∀ j, j < (E.getD m []).length →
      st'.probs[(E.getD m []).getD j 0]?
        = some (some ((((model.fit Xt yt).predict_proba Xe).getD m []).getD j [])) := by
  unfold foldStepRagged at h
  repeat' split at h
  all_goals try exact Except.noConfusion h
  rename_i evalGroups X_train X_eval y_train y_eval heq1 heq2 heq3 heq4 heq5
  rw [hE] at heq1
  rw [hXt] at heq2
  rw [hXe] at heq3
  rw [hyt] at heq4
  rw [hye] at heq5
  injection heq1 with heq1
  injection heq2 with heq2
  injection heq3 with heq3
  injection heq4 with heq4
  injection heq5 with heq5
  subst heq1 heq2 heq3 heq4 heq5
  exact foldStepRaggedBody_places_probs h hlenEQ hlensQ hwidth hnodup

/-- C7: in `CrossValidationHelper.runForRagged` the fold splitter is applied
at the instance (sequence) level with stratification disabled, and evaluated
sub-units are scattered at precomputed per-instance flat indices.
(a) The non-stratified validator used by `runForRagged`
(`get_cross_validator n_splits false`) produces splits over the instance
count that are independent of the labels, for any two label arrays with the
same number of instances.  (b) The precomputed grouping of flat indices by
owning instance (`grouped_indices = ak.unflatten(np.arange(num_samples),
sizes)`, embedded as `chunksOf sizes (List.range sizes.sum)`) assigns
instance `g` exactly the contiguous block of flat indices starting at
`offsetOf sizes g` (the sum of the sizes of the earlier instances) of length
`sizes[g]`, whose `j`-th entry is `offsetOf sizes g + j` — so a sequence's
sub-units form one block that moves between folds only as a whole.  (c) For
every successful fold step of the ragged loop whose gathered eval groups are
`E` (one group of flat indices per eval instance, the groups compatible in
shape with the fold model's outputs and with no duplicated flat index), the
prediction for token `j` of the `m`-th eval instance is written into the flat
predictions array exactly at the precomputed flat index `(E.getD m []).getD
j 0`, and when every probability row has the global width `num_labels` the
matching probability row is written at that same flat index of the flat
probabilities array. -/
theorem c7_ragged_instance_level_splits_and_flat_scatter :
    (∀ (k n : Nat) (rng : RNG) (y y' : List (List String)),
        y.length = y'.length →
        cvSplit (get_cross_validator k false) rng n y
          = cvSplit (get_cross_validator k false) rng n y')
    ∧ (∀ (sizes : List Nat) (g : Nat), g < sizes.length →
        (chunksOf sizes (List.range sizes.sum)).getD g []
            = List.range' (offsetOf sizes g) (sizes.getD g 0)
          ∧ ∀ j, j < sizes.getD g 0 →
            ((chunksOf sizes (List.range sizes.sum)).getD g []).getD j 0
              = offsetOf sizes g + j)
    ∧ (∀ (model : TaggerModel) (X y : List (List String))
        (grouped : List (List Nat)) (nl : Nat) (nr : Option Int)
        (st st' : RunState) (split : List Nat × List Nat)
        (E : List (List Nat)) (Xt Xe yt ye : List (List String)),
        gatherE grouped split.2 = Except.ok E →
        gatherE X split.1 = Except.ok Xt →
        gatherE X split.2 = Except.ok Xe →
        gatherE y split.1 = Except.ok yt →
        gatherE y split.2 = Except.ok ye →
        foldStepRagged model X y grouped nl nr st split = Except.ok st' →
        E.length = ((model.fit Xt yt).predict Xe).length →
        (∀ m, m < E.length →
          (E.getD m []).length
            = (((model.fit Xt yt).predict Xe).getD m []).length) →
        E.length = ((model.fit Xt yt).predict_proba Xe).length →
        (∀ m, m < E.length →
          (E.getD m []).length
            = (((model.fit Xt yt).predict_proba Xe).getD m []).length) →
        (∀ row ∈ ((model.fit Xt yt).predict_proba Xe).flatten,
          row.length = nl) →
        E.flatten.Nodup →
        ∀ m, m < E.length → ∀ j, j < (E.getD m []).length →
          st'.preds[(E.getD m []).getD j 0]?
              = some (some ((((model.fit Xt yt).predict Xe).getD m []).getD j ""))
            ∧ st'.probs[(E.getD m []).getD j 0]?
              = some (some ((((model.fit Xt yt).predict_proba Xe).getD m []).getD j []))) := by
  refine ⟨?_, ?_, ?_⟩
  · intro k n rng y y' hlen
    exact cvSplit_nonstrat_label_independent k n rng y y' hlen
  · intro sizes g hg
    have hmain := chunksOf_range' sizes g 0 0 hg
    rw [Nat.add_zero, Nat.zero_add] at hmain
    have hgetD : (chunksOf sizes (List.range sizes.sum)).getD g []
        = List.range' (offsetOf sizes g) (sizes.getD g 0) := by
      rw [List.getD_eq_getElem?_getD, List.range_eq_range', hmain]
      rfl
    refine ⟨hgetD, ?_⟩
    intro j hj
    rw [hgetD,
      List.getD_eq_getElem _ _ (by rw [List.length_range']; exact hj),
      List.getElem_range', Nat.one_mul]
  · intro model X y grouped nl nr st st' split E Xt Xe yt ye
      hE hXt hXe hyt hye h hlenEP hlensP hlenEQ hlensQ hwidth hnodup m hm j hj
    exact ⟨foldStepRagged_places hE hXt hXe hyt hye h hlenEP hlensP hnodup m hm j hj,
      foldStepRagged_places_probs hE hXt hXe hyt hye h hlenEQ hlensQ hwidth hnodup m hm j hj⟩

theorem c7_ragged_witness :
    cvSplit (get_cross_validator 2 false) idRNG 2 [["x","x"],["x"]]
        = cvSplit (get_cross_validator 2 false) idRNG 2 [["u","u"],["v"]]
    ∧ ((chunksOf [2,1] (List.range (([2,1] : List Nat)).sum)).getD 1 []).getD 0 0
        = offsetOf [2,1] 1 + 0
    ∧ ((RunState.mk [none, none, some "c!"] [none, none, some [(1 : Rat)]]
            none (some ["x"])).preds[(([[2]] : List (List Nat)).getD 0 []).getD 0 0]?
          = some (some ((((demoTagger.fit [["a","b"]] [["x","x"]]).predict
              [["c"]]).getD 0 []).getD 0 ""))
        ∧ (RunState.mk [none, none, some "c!"] [none, none, some [(1 : Rat)]]
            none (some ["x"])).probs[(([[2]] : List (List Nat)).getD 0 []).getD 0 0]?
          = some (some ((((demoTagger.fit [["a","b"]] [["x","x"]]).predict_proba
              [["c"]]).getD 0 []).getD 0 []))) :=
  ⟨c7_ragged_instance_level_splits_and_flat_scatter.1 2 2 idRNG
      [["x","x"],["x"]] [["u","u"],["v"]] rfl,
    (c7_ragged_instance_level_splits_and_flat_scatter.2.1 [2,1] 1 (by decide)).2
      0 (by decide),
    c7_ragged_instance_level_splits_and_flat_scatter.2.2 demoTagger
      [["a","b"],["c"]] [["x","x"],["x"]] (chunksOf [2,1] (List.range 3)) 1 none
      (RunState.mk (List.replicate 3 none) (List.replicate 3 none) none none)
      (RunState.mk [none, none, some "c!"] [none, none, some [(1 : Rat)]]
        none (some ["x"]))
      ([0],[1]) [[2]] [["a","b"]] [["c"]] [["x","x"]] [["x"]]
      rfl rfl rfl rfl rfl (by decide) rfl (by decide) rfl (by decide)
      (by decide) (by decide) 0 (by decide) 0 (by decide)⟩
